import Mathlib

/-!
Verification of the transmission core: piece I/O, piece verification,
metadata exchange (magnet bootstrap) and magnet-link rendering.

The definitions below are a shallow embedding of the C sources:
  * `torrent-magnet.c`        (metadata exchange state machine, magnet links)
  * `inout.c`                 (file locator, range I/O engine, piece verifier)
Machine integers are modelled as `Nat`/`Int` (the C code never overflows on
the values reachable under the guards that the functions themselves check);
fallible calls into external collaborators (block cache, file-handle cache,
SHA-1, the benc parser) are modelled as explicit environments.
-/

namespace Transmission

/-! ## Metadata exchange state machine (`torrent-magnet.c`) -/

/-- `METADATA_PIECE_SIZE`: fixed metadata chunk size (16384 bytes). -/
def METADATA_PIECE_SIZE : Nat := 16384

/-- `MIN_REPEAT_INTERVAL_SECS`: do not ask for the same metadata piece more
often than this (seconds). -/
def MIN_REPEAT_INTERVAL_SECS : Int := 3

/-- `INT_MAX` for the 32-bit `int` used by the C code. -/
def INT_MAX : Int := 2147483647

/-- `struct metadata_node`: one outstanding metadata piece, with the time it
was last requested (`time_t requestedAt`) and its index (`int piece`). -/
structure MetadataNode where
  requestedAt : Int
  piece : Int
deriving DecidableEq, Repr

/-- `struct tr_incomplete_metadata`.  `metadata` is the byte buffer (modelled
as a list of byte values), `metadata_size` its advertised length,
`piecesNeeded` the live prefix of the C array (its length is the C field
`piecesNeededCount`, which the code keeps equal to the number of valid
entries). -/
structure IncompleteMetadata where
  metadata : List Nat
  metadata_size : Nat
  pieceCount : Nat
  piecesNeeded : List MetadataNode
deriving DecidableEq, Repr

/-- The slice of `tr_torrent` that the metadata exchange reads and writes:
whether metadata is already present, the 20-byte infohash
(`tor->info.hash`), the incomplete-metadata state, and the flags set by the
installation sequence (`tr_torrentSetLocalError`, `isStopping`,
`magnetVerify`). -/
structure MagnetTorrent where
  hasMetadata : Bool
  infoHash : List Nat
  incompleteMetadata : Option IncompleteMetadata
  localError : Bool
  isStopping : Bool
  magnetVerify : Bool
deriving DecidableEq, Repr

/-- External collaborators of the installation sequence.  `sha1` models
`tr_sha1` (a function from byte strings to 20-byte digests); the remaining
fields model, for the buffer being installed, the success of
`tr_variantFromBenc`, of `tr_variantFromFile` on the on-disk container, of
`tr_metainfoParse`, and `tr_getBlockSize(info.pieceSize) != 0`.  All of these
are code outside this repository slice; they are modelled as an opaque-free
environment so the state machine can be studied for every possible answer
they may give. -/
structure MetaEnv where
  sha1 : List Nat → List Nat
  parseOk : List Nat → Bool
  containerOk : Bool
  metainfoOk : Bool
  blockSizeOk : Bool

/-- The fresh `piecesNeeded` array built both by
`tr_torrentSetMetadataSizeHint` and by the reset branch of the installation
sequence: entry `i` is `{ .piece = i, .requestedAt = 0 }`. -/
def initialNodes (n : Nat) : List MetadataNode :=
  (List.range n).map (fun (i : Nat) => ⟨0, (i : Int)⟩)

/-- `tr_torrentSetMetadataSizeHint`.  Returns the updated torrent and the
C function's `bool` result.  (`tr_new` never fails in the model; the C
null-checks after it are untaken there as well.)  The C code leaves the
fresh buffer uninitialized; the model fills it with zeros, and no theorem
depends on the initial contents. -/
def tr_torrentSetMetadataSizeHint (tor : MagnetTorrent) (size : Int) :
    MagnetTorrent × Bool :=
  if tor.hasMetadata then (tor, false)
  else if tor.incompleteMetadata.isSome then (tor, false)
  else
    let n : Int :=
      if size ≤ 0 ∨ size > INT_MAX then -1
      else size / (METADATA_PIECE_SIZE : Int) +
        (if size % (METADATA_PIECE_SIZE : Int) ≠ 0 then 1 else 0)
    if n ≤ 0 then (tor, false)
    else
      ({ tor with incompleteMetadata := some (
          { metadata := List.replicate size.toNat 0
            metadata_size := size.toNat
            pieceCount := n.toNat
            piecesNeeded := initialNodes n.toNat : IncompleteMetadata }) }, true)

/-- `getPieceNeededIndex`: index of `piece` inside `piecesNeeded`, `-1` when
absent (the C loop returns the first matching index). -/
def getPieceNeededIndex (m : IncompleteMetadata) (piece : Int) : Int :=
  match m.piecesNeeded.findIdx? (fun nd => nd.piece == piece) with
  | some i => (i : Int)
  | none => -1

/-- `getPieceLength`: expected payload length for `piece` — the tail piece
is `metadata_size - piece * METADATA_PIECE_SIZE`, every other piece is
`METADATA_PIECE_SIZE`. -/
def getPieceLength (m : IncompleteMetadata) (piece : Int) : Int :=
  if piece + 1 = (m.pieceCount : Int) then
    (m.metadata_size : Int) - piece * (METADATA_PIECE_SIZE : Int)
  else (METADATA_PIECE_SIZE : Int)

/-- `memcpy(buf + off, src, src.length)` on a byte list. -/
def writeBytes (buf : List Nat) (off : Nat) (src : List Nat) : List Nat :=
  buf.take off ++ src ++ buf.drop (off + src.length)

/-- Success condition of the installation sequence: the SHA-1 of the
assembled buffer equals the infohash (`memcmp(sha1, tor->info.hash, 20)`),
the buffer parses as benc, the on-disk container loads, `tr_metainfoParse`
succeeds, and the derived block size is nonzero. -/
def installOk (env : MetaEnv) (tor : MagnetTorrent) (m : IncompleteMetadata) :
    Bool :=
  (env.sha1 m.metadata == tor.infoHash) && env.parseOk m.metadata &&
    env.containerOk && env.metainfoOk && env.blockSizeOk

/-- The reset branch of the installation sequence: repopulate
`piecesNeeded` with every piece index, `requestedAt = 0`; the buffer is kept
(it is not freed). -/
def resetNeeded (m : IncompleteMetadata) : IncompleteMetadata :=
  { m with piecesNeeded := initialNodes m.pieceCount }

/-- Lines 1287–1380 of `tr_torrentSetMetadataPiece`: run once
`piecesNeededCount` hits zero.  On full success the incomplete-metadata
state is freed and the torrent is scheduled for a stop+verify cycle; the
"unusable metadata" case additionally sets a torrent-local error; every
failure repopulates `piecesNeeded`.  The C nesting
(`if checksum { if parsed { if loaded { ... } } }` with a `success` flag) is
flattened into the equivalent guard chain; filesystem side effects —
removing the `.resume` file, rewriting the `.torrent` container — are not
part of the modelled state. -/
def installStep (env : MetaEnv) (tor : MagnetTorrent) (m : IncompleteMetadata) :
    MagnetTorrent :=
  if (env.sha1 m.metadata == tor.infoHash) && env.parseOk m.metadata &&
      env.containerOk && env.metainfoOk && env.blockSizeOk then
    { tor with incompleteMetadata := none, hasMetadata := true,
               isStopping := true, magnetVerify := true }
  else if (env.sha1 m.metadata == tor.infoHash) && env.parseOk m.metadata &&
      env.containerOk && env.metainfoOk && !env.blockSizeOk then
    { tor with localError := true, incompleteMetadata := some (resetNeeded m) }
  else
    { tor with incompleteMetadata := some (resetNeeded m) }

/-- `tr_torrentSetMetadataPiece(tor, piece, data, len)`.  Drops the payload
unless the torrent is acquiring metadata, `piece` is in range, `len` matches
the expected piece length and `piece` is still needed; otherwise copies the
payload into the buffer at `piece * METADATA_PIECE_SIZE`, removes the entry
(`tr_removeElementFromArray` + decrement = erase at the found index), and
runs the installation sequence when nothing remains. -/
def tr_torrentSetMetadataPiece (env : MetaEnv) (tor : MagnetTorrent)
    (piece : Int) (data : List Nat) (len : Int) : MagnetTorrent :=
  match tor.incompleteMetadata with
  | none => tor
  | some m =>
    if piece < 0 ∨ (m.pieceCount : Int) ≤ piece then tor
    else if getPieceLength m piece ≠ len then tor
    else
      let idx := getPieceNeededIndex m piece
      if idx = -1 then tor
      else
        let m' : IncompleteMetadata :=
          { m with
            metadata := writeBytes m.metadata
              (piece * (METADATA_PIECE_SIZE : Int)).toNat (data.take len.toNat)
            piecesNeeded := m.piecesNeeded.eraseIdx idx.toNat }
        if m'.piecesNeeded.length = 0 then installStep env tor m'
        else { tor with incompleteMetadata := some m' }

/-- `tr_torrentGetNextMetadataRequest(tor, now, &piece)`: returns the
updated torrent and `some piece` when the C function returns `true`.  The
head of `piecesNeeded` is eligible only when
`requestedAt + MIN_REPEAT_INTERVAL_SECS < now`; the chosen entry is removed
from the head and re-appended at the tail stamped with `now`. -/
def tr_torrentGetNextMetadataRequest (tor : MagnetTorrent) (now : Int) :
    MagnetTorrent × Option Int :=
  match tor.incompleteMetadata with
  | none => (tor, none)
  | some m =>
    match m.piecesNeeded with
    | [] => (tor, none)
    | head :: rest =>
      if head.requestedAt + MIN_REPEAT_INTERVAL_SECS < now then
        ({ tor with incompleteMetadata := some (
            { m with piecesNeeded := rest ++ [⟨now, head.piece⟩] }) },
         some head.piece)
      else (tor, none)

/-- Run `tr_torrentGetNextMetadataRequest` at each clock reading in turn,
collecting the answers. -/
def runRequests (tor : MagnetTorrent) : List Int → List (Option Int)
  | [] => []
  | t :: ts =>
    let r := tr_torrentGetNextMetadataRequest tor t
    r.2 :: runRequests r.1 ts

/-- Deliver the pieces listed in `pieces` in order, piece `i` carrying
payload `dataFn i` (with `len` the payload's length, as a peer would pass
it). -/
def deliverRun (env : MetaEnv) (tor : MagnetTorrent) (dataFn : Nat → List Nat)
    (pieces : List Nat) : MagnetTorrent :=
  pieces.foldl
    (fun t (i : Nat) => tr_torrentSetMetadataPiece env t (i : Int) (dataFn i)
      ((dataFn i).length : Int)) tor

/-- The torrent state produced by a fully successful installation. -/
def installedSuccessState (tor : MagnetTorrent) : MagnetTorrent :=
  { tor with incompleteMetadata := none, hasMetadata := true,
             isStopping := true, magnetVerify := true }

/-- Expected length of metadata piece `i` for an info dict of `s` bytes in
`n` pieces (the last piece is the remainder). -/
def expectedLen (s n i : Nat) : Nat :=
  if i + 1 = n then s - (n - 1) * METADATA_PIECE_SIZE else METADATA_PIECE_SIZE

/-- The needed list holding exactly the pieces `l, l+1, ..., n-1`, none yet
requested: the shape `piecesNeeded` has after `l` in-order deliveries into a
freshly (re)initialised `n`-piece state. -/
def nodesFrom (l n : Nat) : List MetadataNode :=
  (List.range' l (n - l)).map (fun (i : Nat) => ⟨0, (i : Int)⟩)

/-- Concatenation of the payloads of pieces `l, ..., n-1`. -/
def assembledFrom (dataFn : Nat → List Nat) (l n : Nat) : List Nat :=
  ((List.range' l (n - l)).map dataFn).flatten

/-- Invariant of the incomplete-metadata state: the outstanding entries
carry pairwise-distinct piece indices, each in `[0, pieceCount)`, and there
are at most `pieceCount` of them. -/
def InvM (m : IncompleteMetadata) : Prop :=
  (m.piecesNeeded.map (fun nd => nd.piece)).Nodup ∧
  (∀ nd ∈ m.piecesNeeded, 0 ≤ nd.piece ∧ nd.piece < (m.pieceCount : Int)) ∧
  m.piecesNeeded.length ≤ m.pieceCount

/-- Torrent-level invariant: whenever incomplete-metadata state exists it
satisfies `InvM`. -/
def InvT (tor : MagnetTorrent) : Prop :=
  ∀ m, tor.incompleteMetadata = some m → InvM m

instance (m : IncompleteMetadata) : Decidable (InvM m) := by
  unfold InvM; infer_instance

instance (tor : MagnetTorrent) : Decidable (InvT tor) := by
  unfold InvT
  cases tor.incompleteMetadata with
  | none => exact .isTrue (by intro m h; cases h)
  | some m =>
    exact if h : InvM m then
      .isTrue (by intro m' hm'; cases hm'; exact h)
    else .isFalse (by intro hall; exact h (hall m rfl))

/-- Concrete acquiring torrent with five outstanding metadata pieces, all
never requested (`requestedAt = 0`); the info dict is advertised as 70000
bytes (five pieces). -/
def fiveMeta : IncompleteMetadata :=
  { metadata := List.replicate 70000 0
    metadata_size := 70000
    pieceCount := 5
    piecesNeeded := initialNodes 5 }

/-- Torrent holding `fiveMeta`. -/
def fiveTor : MagnetTorrent :=
  { hasMetadata := false
    infoHash := List.replicate 20 0
    incompleteMetadata := some fiveMeta
    localError := false
    isStopping := false
    magnetVerify := false }

/-! ## File locator and range I/O engine (`inout.c`) -/

/-- The per-file slice of `tr_file` that the locator and the I/O engine
read: cumulative byte `offset` within the torrent and `length` in bytes.
(`uint64_t` values, modelled as `Nat`.) -/
structure TrFile where
  offset : Nat
  length : Nat
deriving DecidableEq, Repr, Inhabited

/-- `files[i]` with the C array's out-of-bounds reads replaced by a default
(never exercised under the asserted preconditions). -/
def fileAt (files : List TrFile) (i : Nat) : TrFile :=
  files.getD i default

/-- `compareOffsetToFile`: the `bsearch` comparator — negative when the
offset lies before the file, positive when at or past its end (so a
zero-length file never compares equal), zero when the file contains the
offset. -/
def compareOffsetToFile (offset : Nat) (file : TrFile) : Int :=
  if offset < file.offset then -1
  else if file.offset + file.length ≤ offset then 1
  else 0

/-- C `bsearch` over `files[l..u)` with `compareOffsetToFile` (the glibc
halving search): returns an index whose file compares equal, `none` when the
range empties.  The loop is written with an explicit `fuel` bound so that
it is structurally recursive; each iteration shrinks `u - l`, so `u - l`
fuel is enough and the fuel-exhausted branch is never taken. -/
def bsearchLoop (key : Nat) (files : List TrFile) : Nat → Nat → Nat → Option Nat
  | 0, _, _ => none
  | fuel + 1, l, u =>
    if l < u then
      if compareOffsetToFile key (fileAt files ((l + u) / 2)) < 0 then
        bsearchLoop key files fuel l ((l + u) / 2)
      else if 0 < compareOffsetToFile key (fileAt files ((l + u) / 2)) then
        bsearchLoop key files fuel ((l + u) / 2 + 1) u
      else some ((l + u) / 2)
    else none

/-- The halving search over `[l, u)`. -/
def bsearchGo (key : Nat) (files : List TrFile) (l u : Nat) : Option Nat :=
  bsearchLoop key files (u - l) l u

/-- `tr_ioFindFileLocation`.  The global offset is
`tr_pieceOffset(tor, piece, pieceOffset, 0) = piece * pieceSize +
pieceOffset` (modelled from the spec: `tr_pieceOffset` lives outside this
slice).  The C function asserts the search succeeds; the model returns
`none` on that impossible branch. -/
def tr_ioFindFileLocation (files : List TrFile) (pieceSize piece pieceOffset : Nat) :
    Option (Nat × Nat) :=
  let offset := piece * pieceSize + pieceOffset
  match bsearchGo offset files 0 files.length with
  | some i => some (i, offset - (fileAt files i).offset)
  | none => none

/-- Layout invariants of the file table (spec section 3): nonempty, first
file at offset 0, contiguous offsets, and the total size is the offset plus
length of the last file. -/
def layoutOk (files : List TrFile) (total : Nat) : Prop :=
  files ≠ [] ∧ (fileAt files 0).offset = 0 ∧
  (∀ i < files.length - 1,
    (fileAt files (i + 1)).offset = (fileAt files i).offset + (fileAt files i).length) ∧
  total = (fileAt files (files.length - 1)).offset +
    (fileAt files (files.length - 1)).length

instance (files : List TrFile) (total : Nat) : Decidable (layoutOk files total) := by
  unfold layoutOk; infer_instance

/-- Answers of the external collaborators used by `readOrWriteBytes`:
whether `tr_fdFileGetCached` hits for `(fileIndex, doWrite)`, whether
`tr_torrentFindFile2` finds the file on disk, the errno of a failed
`tr_fdFileCheckout` (`none` = checkout succeeded), and the errnos of
`tr_sys_file_read_at` / `tr_sys_file_write_at`.  The return value of
`tr_sys_file_advise` is discarded by the C code and has no field here. -/
structure IoEnv where
  cached : Nat → Bool → Bool
  fileExists : Nat → Bool
  checkoutErrno : Nat → Bool → Option Int
  readErrno : Nat → Nat → Nat → Option Int
  writeErrno : Nat → Nat → Nat → Option Int

/-- `ENOENT` errno. -/
def ENOENT : Int := 2

/-- `EINVAL` errno. -/
def EINVAL : Int := 22

/-- `readOrWriteBytes` (ioMode: 0 = `TR_IO_READ`, 1 = `TR_IO_PREFETCH`,
2 = `TR_IO_WRITE`): returns 0 on success or an errno.  A zero-length file
contributes no work; a read or prefetch of a file that is neither cached nor
on disk yields `ENOENT`; a failed checkout yields its errno; the advise
result of the prefetch branch is ignored. -/
def readOrWriteBytes (env : IoEnv) (files : List TrFile)
    (ioMode fileIndex fileOffset buflen : Nat) : Int :=
  let file := fileAt files fileIndex
  if file.length = 0 then 0
  else
    let doWrite := decide (2 ≤ ioMode)
    let fdErr : Int :=
      if env.cached fileIndex doWrite then 0
      else
        let err1 : Int := if !env.fileExists fileIndex && !doWrite then ENOENT else 0
        if err1 = 0 then
          match env.checkoutErrno fileIndex doWrite with
          | none => 0
          | some e => e
        else err1
    if fdErr = 0 then
      if ioMode = 0 then
        match env.readErrno fileIndex fileOffset buflen with
        | none => 0
        | some e => e
      else if ioMode = 2 then
        match env.writeErrno fileIndex fileOffset buflen with
        | none => 0
        | some e => e
      else 0
    else fdErr

/-- The `while (buflen != 0 && err == 0)` loop of `readOrWritePiece`: serve
`min(buflen, file.length - fileOffset)` bytes from the current file, then
move to the next file at offset 0.  Walking past the file table (impossible
when the range lies within the torrent, as the caller asserts) answers
`EINVAL` in the model.  The loop advances `fileIndex` every iteration, so
`files.length + 1` fuel always suffices and the fuel-exhausted branch is
never taken on the calls `readOrWritePiece` makes. -/
def rwLoop (env : IoEnv) (files : List TrFile) (ioMode : Nat) :
    Nat → Nat → Nat → Nat → Int
  | 0, _, _, buflen => if buflen = 0 then 0 else EINVAL
  | fuel + 1, fileIndex, fileOffset, buflen =>
    if buflen = 0 then 0
    else if fileIndex < files.length then
      if readOrWriteBytes env files ioMode fileIndex fileOffset
          (min buflen ((fileAt files fileIndex).length - fileOffset)) = 0 then
        rwLoop env files ioMode fuel (fileIndex + 1) 0
          (buflen - min buflen ((fileAt files fileIndex).length - fileOffset))
      else
        readOrWriteBytes env files ioMode fileIndex fileOffset
          (min buflen ((fileAt files fileIndex).length - fileOffset))
    else EINVAL

/-- `readOrWritePiece`: `EINVAL` when the piece index is out of bounds,
otherwise locate the start and run the split loop. -/
def readOrWritePiece (env : IoEnv) (files : List TrFile)
    (pieceSize pieceCount ioMode piece pieceOffset buflen : Nat) : Int :=
  if pieceCount ≤ piece then EINVAL
  else
    match tr_ioFindFileLocation files pieceSize piece pieceOffset with
    | some fl => rwLoop env files ioMode (files.length + 1) fl.1 fl.2 buflen
    | none => EINVAL

/-- `tr_ioPrefetch(tor, piece, begin, len)`. -/
def tr_ioPrefetch (env : IoEnv) (files : List TrFile)
    (pieceSize pieceCount piece begin_ len : Nat) : Int :=
  readOrWritePiece env files pieceSize pieceCount 1 piece begin_ len

/-- Sum of the file lengths from `fileIndex` on: the number of bytes the
split loop can still serve when entering file `fileIndex` at offset 0. -/
def remSum (files : List TrFile) (fileIndex : Nat) : Nat :=
  ((files.drop fileIndex).map (fun f => f.length)).sum

/-! ## Piece verifier (`inout.c`) -/

/-- External collaborators of the verifier: `sha1` is the digest of all the
bytes fed through the streaming SHA-1 context, `readBlock offset len` the
answer of `tr_cacheReadBlock` for that range of the piece (`none` = the read
failed). -/
structure HashEnv where
  sha1 : List Nat → List Nat
  readBlock : Nat → Nat → Option (List Nat)

/-- The read loop of `recalculateHash`, carrying the bytes fed to the SHA-1
context so far: reads `min(bytesLeft, blockSize)` bytes per step and aborts
on the first failure.  `blockSize = 0` is ruled out by
`TR_ASSERT(buflen > 0)`; the model answers `none` on it. -/
def recalcGo (env : HashEnv) (blockSize : Nat) :
    Nat → Nat → Nat → List Nat → Option (List Nat)
  | 0, _, bytesLeft, acc => if bytesLeft = 0 then some (env.sha1 acc) else none
  | fuel + 1, offset, bytesLeft, acc =>
    if bytesLeft = 0 then some (env.sha1 acc)
    else if blockSize = 0 then none
    else
      match env.readBlock offset (min bytesLeft blockSize) with
      | none => none
      | some blk =>
        recalcGo env blockSize fuel (offset + min bytesLeft blockSize)
          (bytesLeft - min bytesLeft blockSize) (acc ++ blk)

/-- `recalculateHash(tor, piece, setme)`: `some digest` on success, `none`
when a block read failed (the C function then returns `false` and discards
the unfinalized context).  The prefetch it issues first has no effect on the
result (its errors are not consulted).  Each iteration consumes at least one
byte, so `pieceLen` fuel always suffices. -/
def recalculateHash (env : HashEnv) (pieceLen blockSize : Nat) : Option (List Nat) :=
  recalcGo env blockSize pieceLen 0 pieceLen []

/-- `tr_ioTestPiece(tor, piece)`: recompute the hash and `memcmp` it against
the stored per-piece digest. -/
def tr_ioTestPiece (env : HashEnv) (pieceLen blockSize : Nat)
    (digest : List Nat) : Bool :=
  match recalculateHash env pieceLen blockSize with
  | none => false
  | some h => h == digest

/-- The bytes `recalculateHash` streams through the SHA-1 context: the
blocks served by the cache in offset order, each of length
`min(blockSize, bytesLeft)`, concatenated; `none` when any read fails. -/
def pieceStream (env : HashEnv) (blockSize : Nat) :
    Nat → Nat → Nat → Option (List Nat)
  | 0, _, bytesLeft => if bytesLeft = 0 then some [] else none
  | fuel + 1, offset, bytesLeft =>
    if bytesLeft = 0 then some []
    else if blockSize = 0 then none
    else
      match env.readBlock offset (min bytesLeft blockSize) with
      | none => none
      | some blk =>
        (pieceStream env blockSize fuel (offset + min bytesLeft blockSize)
          (bytesLeft - min bytesLeft blockSize)).map (fun rest => blk ++ rest)

/-- The `(offset, length)` pairs of the block reads the verifier issues for
a piece of `bytesLeft` remaining bytes starting at `offset`. -/
def blockSchedule (blockSize : Nat) : Nat → Nat → Nat → List (Nat × Nat)
  | 0, _, _ => []
  | fuel + 1, offset, bytesLeft =>
    if bytesLeft = 0 then []
    else if blockSize = 0 then []
    else
      (offset, min bytesLeft blockSize) ::
        blockSchedule blockSize fuel (offset + min bytesLeft blockSize)
          (bytesLeft - min bytesLeft blockSize)

/-! ## Magnet-link renderer (`torrent-magnet.c`) -/

/-- Lowercase hex digit, as `tr_sha1_to_hex` produces for `hashString`. -/
def hexCharLower (n : Nat) : Char :=
  Char.ofNat (if n < 10 then 48 + n else 87 + n)

/-- Uppercase hex digit, as the percent-escaper produces. -/
def hexCharUpper (n : Nat) : Char :=
  Char.ofNat (if n < 10 then 48 + n else 55 + n)

/-- `tor->info.hashString`: the cached 40-character lowercase hex rendering
of the 20-byte infohash.  Modelled from the spec: the field is filled by
`tr_sha1_to_hex`, which lives outside this slice. -/
def hashStringOf (hash : List Nat) : List Char :=
  hash.flatMap (fun b => [hexCharLower (b / 16 % 16), hexCharLower (b % 16)])

/-- URI unreserved characters (RFC 3986): kept verbatim by the escaper. -/
def isUnreserved (c : Char) : Bool :=
  c.isAlpha || c.isDigit || c == '.' || c == '-' || c == '_' || c == '~'

/-- `tr_http_escape(s, text, TR_BAD_SIZE, true)`.  Modelled from the spec:
percent-encoding follows the URI unreserved-character rule, every other byte
becomes `%XX` with uppercase hex. -/
def tr_http_escape (s : List Char) : List Char :=
  s.flatMap (fun c =>
    if isUnreserved c then [c]
    else ['%', hexCharUpper (c.toNat / 16 % 16), hexCharUpper (c.toNat % 16)])

/-- The fields of `tr_info` that `tr_torrentInfoGetMagnetLink` reads. -/
structure TrInfoView where
  hash : List Nat
  name : List Char
  trackers : List (List Char)
  webseeds : List (List Char)

/-- `tr_torrentInfoGetMagnetLink`: the fixed `magnet:?xt=urn:btih:` head
with the hex infohash, then `&dn=` with the escaped name when the name is
non-empty, then `&tr=` per tracker and `&ws=` per web seed. -/
def tr_torrentInfoGetMagnetLink (inf : TrInfoView) : List Char :=
  String.data "magnet:?xt=urn:btih:" ++ hashStringOf inf.hash
    ++ (if inf.name.isEmpty then []
        else String.data "&dn=" ++ tr_http_escape inf.name)
    ++ inf.trackers.flatMap (fun t => String.data "&tr=" ++ tr_http_escape t)
    ++ inf.webseeds.flatMap (fun w => String.data "&ws=" ++ tr_http_escape w)

/-! ## Concrete states and environments used by the theorems -/

/-- An installation environment in which every external step succeeds and
the SHA-1 of every buffer is the 20-zero-byte digest. -/
def envAllOk : MetaEnv :=
  { sha1 := fun _ => List.replicate 20 1
    parseOk := fun _ => true
    containerOk := true
    metainfoOk := true
    blockSizeOk := true }

/-- Environment whose SHA-1 recognises exactly the one-byte buffer `[9]`
(digest `[1]`) and in which the assembled buffer fails to parse as benc. -/
def envParseFail : MetaEnv :=
  { sha1 := fun b => if b = [9] then [1] else [0]
    parseOk := fun _ => false
    containerOk := true
    metainfoOk := true
    blockSizeOk := true }

/-- Environment whose SHA-1 recognises exactly the one-byte buffer `[9]`
(digest `[1]`) and in which every later installation step succeeds. -/
def envParseGood : MetaEnv :=
  { sha1 := fun b => if b = [9] then [1] else [0]
    parseOk := fun _ => true
    containerOk := true
    metainfoOk := true
    blockSizeOk := true }

/-- Environment whose SHA-1 is constantly `[1]`: installation never passes
the checksum test against an infohash of `[0]`. -/
def envBadSum : MetaEnv :=
  { sha1 := fun _ => [1]
    parseOk := fun _ => true
    containerOk := true
    metainfoOk := true
    blockSizeOk := true }

/-- Acquiring torrent with a one-piece, 1-byte info dict and infohash
`[1]` (the digest `envParseFail`/`envParseGood` assign to `[9]`). -/
def oneTor : MagnetTorrent :=
  { hasMetadata := false
    infoHash := [1]
    incompleteMetadata := some
      { metadata := [0]
        metadata_size := 1
        pieceCount := 1
        piecesNeeded := initialNodes 1 }
    localError := false
    isStopping := false
    magnetVerify := false }

/-- Acquiring torrent with a two-piece 16385-byte info dict of which only
the final piece (index 1, length 1) is still needed. -/
def twoTorLast : MagnetTorrent :=
  { hasMetadata := false
    infoHash := [0]
    incompleteMetadata := some
      { metadata := List.replicate 16385 0
        metadata_size := 16385
        pieceCount := 2
        piecesNeeded := [⟨0, 1⟩]
        : IncompleteMetadata }
    localError := false
    isStopping := false
    magnetVerify := false }

/-- Acquiring torrent with a two-piece 16385-byte info dict, both pieces
outstanding. -/
def twoTorFull : MagnetTorrent :=
  { hasMetadata := false
    infoHash := [0]
    incompleteMetadata := some
      { metadata := List.replicate 16385 0
        metadata_size := 16385
        pieceCount := 2
        piecesNeeded := initialNodes 2
        : IncompleteMetadata }
    localError := false
    isStopping := false
    magnetVerify := false }

/-- Scenario S1 file table: `A` of 1000 bytes, zero-length `B`, `C` of
2000 bytes (total 3000). -/
def filesS1 : List TrFile := [⟨0, 1000⟩, ⟨1000, 0⟩, ⟨1000, 2000⟩]

/-- A single 100-byte file. -/
def filesOne : List TrFile := [⟨0, 100⟩]

/-- I/O environment in which nothing is cached and no file exists on disk
(checkout, when attempted, succeeds). -/
def ioMissing : IoEnv :=
  { cached := fun _ _ => false
    fileExists := fun _ => false
    checkoutErrno := fun _ _ => none
    readErrno := fun _ _ _ => none
    writeErrno := fun _ _ _ => none }

/-- I/O environment in which nothing is cached, every file exists on disk,
and every `tr_fdFileCheckout` fails with errno 13. -/
def ioCheckoutFail : IoEnv :=
  { cached := fun _ _ => false
    fileExists := fun _ => true
    checkoutErrno := fun _ _ => some 13
    readErrno := fun _ _ _ => none
    writeErrno := fun _ _ _ => none }

/-- I/O environment in which every file handle is cached. -/
def ioCached : IoEnv :=
  { cached := fun _ _ => true
    fileExists := fun _ => true
    checkoutErrno := fun _ _ => none
    readErrno := fun _ _ _ => none
    writeErrno := fun _ _ _ => none }

/-- Verifier environment: every block read succeeds with bytes `1`, and the
digest of a byte string is the singleton list holding its length. -/
def hashEnvOk : HashEnv :=
  { sha1 := fun l => [l.length]
    readBlock := fun _ len => some (List.replicate len 1) }

/-- Verifier environment whose block read fails at offset 2. -/
def hashEnvFail : HashEnv :=
  { sha1 := fun l => [l.length]
    readBlock := fun off len => if off = 2 then none else some (List.replicate len 1) }

/-- The S6 magnet input: hash of twenty `0xAA` bytes, name `hello world`,
one tracker. -/
def infS6 : TrInfoView :=
  { hash := List.replicate 20 170
    name := String.data "hello world"
    trackers := [String.data "http://t/a"]
    webseeds := [] }

/-! ## Helper lemmas -/

theorem getPieceNeededIndex_eq_neg_one_iff (m : IncompleteMetadata) (piece : Int) :
    getPieceNeededIndex m piece = -1 ↔ ∀ nd ∈ m.piecesNeeded, nd.piece ≠ piece := by
  unfold getPieceNeededIndex
  cases h : List.findIdx? (fun nd => nd.piece == piece) m.piecesNeeded with
  | none =>
    simp only [h]
    rw [List.findIdx?_eq_none_iff] at h
    simp only [beq_eq_false_iff_ne] at h
    simpa using h
  | some i =>
    simp only [h]
    rw [List.findIdx?_eq_some_iff_getElem] at h
    obtain ⟨hi, hp, _⟩ := h
    simp only [beq_iff_eq] at hp
    constructor
    · intro hcontr; omega
    · intro hall; exact absurd hp (hall _ (List.getElem_mem hi))

theorem getPieceNeededIndex_eq_coe (m : IncompleteMetadata) (piece : Int) (idx : Nat) :
    getPieceNeededIndex m piece = (idx : Int) ↔
      List.findIdx? (fun nd => nd.piece == piece) m.piecesNeeded = some idx := by
  unfold getPieceNeededIndex
  cases h : List.findIdx? (fun nd => nd.piece == piece) m.piecesNeeded with
  | none => simp only [h]; constructor <;> intro hc <;> [omega; cases hc]
  | some j => simp only [h, Option.some.injEq]; omega

/-- Unfolding of `tr_torrentSetMetadataPiece` on an accepted delivery. -/
theorem setMetadataPiece_accept (env : MetaEnv) (tor : MagnetTorrent)
    (m : IncompleteMetadata) (piece : Int) (data : List Nat) (len : Int)
    (idx : Nat) (hm : tor.incompleteMetadata = some m)
    (h0 : ¬piece < 0) (h1 : ¬(m.pieceCount : Int) ≤ piece)
    (hlen : getPieceLength m piece = len)
    (hidx : List.findIdx? (fun nd => nd.piece == piece) m.piecesNeeded = some idx) :
    tr_torrentSetMetadataPiece env tor piece data len =
      (if ((m.piecesNeeded.eraseIdx idx).length = 0) then
        installStep env tor
          { m with
            metadata := writeBytes m.metadata
              (piece * (METADATA_PIECE_SIZE : Int)).toNat (data.take len.toNat)
            piecesNeeded := m.piecesNeeded.eraseIdx idx }
       else { tor with incompleteMetadata := some (
          { m with
            metadata := writeBytes m.metadata
              (piece * (METADATA_PIECE_SIZE : Int)).toNat (data.take len.toNat)
            piecesNeeded := m.piecesNeeded.eraseIdx idx }) }) := by
  unfold tr_torrentSetMetadataPiece
  rw [hm]
  simp only [getPieceNeededIndex, hidx]
  rw [if_neg (not_or.mpr ⟨h0, h1⟩), if_neg (fun hc => hc hlen),
    if_neg (by omega : ¬((idx : Int) = -1))]
  simp

/-- Unfolding of `tr_torrentSetMetadataPiece` on a dropped delivery. -/
theorem setMetadataPiece_drop (env : MetaEnv) (tor : MagnetTorrent)
    (m : IncompleteMetadata) (piece : Int) (data : List Nat) (len : Int)
    (hm : tor.incompleteMetadata = some m)
    (h : piece < 0 ∨ (m.pieceCount : Int) ≤ piece ∨ getPieceLength m piece ≠ len ∨
      getPieceNeededIndex m piece = -1) :
    tr_torrentSetMetadataPiece env tor piece data len = tor := by
  unfold tr_torrentSetMetadataPiece
  rw [hm]
  simp only
  by_cases hr : piece < 0 ∨ (m.pieceCount : Int) ≤ piece
  · rw [if_pos hr]
  · rw [if_neg hr]
    by_cases hl : getPieceLength m piece ≠ len
    · rw [if_pos hl]
    · rw [if_neg hl]
      have hidx : getPieceNeededIndex m piece = -1 := by tauto
      simp [hidx]

/-- `installStep` either frees the incomplete state or resets it. -/
theorem installStep_incompleteMetadata (env : MetaEnv) (tor : MagnetTorrent)
    (m : IncompleteMetadata) :
    (installStep env tor m).incompleteMetadata = none ∨
    (installStep env tor m).incompleteMetadata = some (resetNeeded m) := by
  unfold installStep
  split
  · left; rfl
  · split
    · right; rfl
    · right; rfl

theorem installStep_of_installOk (env : MetaEnv) (tor : MagnetTorrent)
    (m : IncompleteMetadata) (h : installOk env tor m = true) :
    installStep env tor m = installedSuccessState tor := by
  unfold installOk at h
  unfold installStep installedSuccessState
  rw [if_pos h]

theorem installStep_of_not_installOk (env : MetaEnv) (tor : MagnetTorrent)
    (m : IncompleteMetadata) (h : installOk env tor m = false) :
    (installStep env tor m).incompleteMetadata = some (resetNeeded m) := by
  unfold installOk at h
  unfold installStep
  rw [if_neg (by simp [h])]
  split
  · rfl
  · rfl

/-- `tr_torrentSetMetadataSizeHint` either rejects (state unchanged) or
installs a fresh incomplete-metadata record. -/
theorem sizeHint_shape (tor : MagnetTorrent) (size : Int) :
    tr_torrentSetMetadataSizeHint tor size = (tor, false) ∨
    ∃ k : Nat, tr_torrentSetMetadataSizeHint tor size =
      ({ tor with incompleteMetadata := some (
          { metadata := List.replicate size.toNat 0
            metadata_size := size.toNat
            pieceCount := k
            piecesNeeded := initialNodes k : IncompleteMetadata }) }, true) := by
  simp only [tr_torrentSetMetadataSizeHint]
  by_cases h1 : tor.hasMetadata
  · rw [if_pos h1]; left; rfl
  · rw [if_neg h1]
    by_cases h2 : tor.incompleteMetadata.isSome
    · rw [if_pos h2]; left; rfl
    · rw [if_neg h2]
      by_cases h3 : (if size ≤ 0 ∨ size > INT_MAX then (-1 : Int)
          else size / (METADATA_PIECE_SIZE : Int) +
            (if size % (METADATA_PIECE_SIZE : Int) ≠ 0 then 1 else 0)) ≤ 0
      · rw [if_pos h3]; left; rfl
      · rw [if_neg h3]; right; exact ⟨_, rfl⟩

/-! ## C1: next metadata request -/

/-- C1 counterexample.  The claim states that with five outstanding pieces
all at `last_requested_at = 0`, ten calls at `t = 1..10` return
`0, 1, 2, 3, 4, none, none, none, 0, 1`, and that a request is denied
exactly when `last_requested_at + 3 > now`.  On the code the trace is
`none, none, none, 0, 1, 2, 3, 4, 0, 1`; in particular at `t = 3` the head
has `last_requested_at + 3 > now` false, yet the code still returns none
(the code requires `last_requested_at + 3 < now`, not `≤`). -/
theorem C1_counterexample :
    runRequests fiveTor [1, 2, 3, 4, 5, 6, 7, 8, 9, 10] ≠
      [some 0, some 1, some 2, some 3, some 4, none, none, none, some 0, some 1] ∧
    runRequests fiveTor [1, 2, 3, 4, 5, 6, 7, 8, 9, 10] =
      [none, none, none, some 0, some 1, some 2, some 3, some 4, some 0, some 1] ∧
    (tr_torrentGetNextMetadataRequest fiveTor 3).2 = none ∧
    ¬((0 : Int) + MIN_REPEAT_INTERVAL_SECS > 3) := by
  refine ⟨by decide, by decide, by decide, by decide⟩

/-- C1 (amended): in ACQUIRING with non-empty needed list,
`tr_torrentGetNextMetadataRequest` returns none when
`needed[0].last_requested_at + 3 ≥ now` (not `> now` as claimed), and
otherwise removes the head entry, appends `{head.piece, now}` at the tail
and returns `head.piece`; with five outstanding pieces all initially at
`last_requested_at = 0`, ten successive calls at `t = 1..10` return
`none, none, none, 0, 1, 2, 3, 4, 0, 1` (not `0, 1, 2, 3, 4, none, none,
none, 0, 1` as claimed). -/
theorem C1_next_request_amended :
    (∀ (tor : MagnetTorrent) (m : IncompleteMetadata) (now : Int)
        (head : MetadataNode) (rest : List MetadataNode),
      tor.incompleteMetadata = some m → m.piecesNeeded = head :: rest →
        ((now ≤ head.requestedAt + MIN_REPEAT_INTERVAL_SECS →
            tr_torrentGetNextMetadataRequest tor now = (tor, none)) ∧
         (head.requestedAt + MIN_REPEAT_INTERVAL_SECS < now →
            tr_torrentGetNextMetadataRequest tor now =
              ({ tor with incompleteMetadata := some (
                  { m with piecesNeeded := rest ++ [⟨now, head.piece⟩] }) },
               some head.piece)))) ∧
    runRequests fiveTor [1, 2, 3, 4, 5, 6, 7, 8, 9, 10] =
      [none, none, none, some 0, some 1, some 2, some 3, some 4, some 0, some 1] := by
  constructor
  · intro tor m now head rest h1 h2
    constructor
    · intro hle
      unfold tr_torrentGetNextMetadataRequest
      rw [h1]
      simp only [h2]
      rw [if_neg (by omega)]
    · intro hlt
      unfold tr_torrentGetNextMetadataRequest
      rw [h1]
      simp only [h2]
      rw [if_pos hlt]
  · decide

/-- C1 witness: at `t = 4` the five-piece state yields a request for
piece 0. -/
theorem C1_witness :
    (tr_torrentGetNextMetadataRequest fiveTor 4).2 = some 0 :=
  congrArg Prod.snd
    ((C1_next_request_amended.1 fiveTor fiveMeta 4 ⟨0, 0⟩
      [⟨0, 1⟩, ⟨0, 2⟩, ⟨0, 3⟩, ⟨0, 4⟩] rfl (by decide)).2 (by decide))

/-! ## C4: the metadata size hint -/

/-- C4: `tr_torrentSetMetadataSizeHint(size)` returns false exactly when
the torrent already has metadata, or incomplete-metadata state already
exists, or `size ≤ 0`, or `size > INT_MAX`; otherwise it sets
`piece_count = ceil(size / 16384)`, allocates a `size`-byte buffer and a
needed list whose `i`-th entry is `{piece: i, last_requested_at: 0}`, and
returns true. -/
theorem C4_size_hint (tor : MagnetTorrent) (size : Int) :
    ((tr_torrentSetMetadataSizeHint tor size).2 = false ↔
      (tor.hasMetadata = true ∨ tor.incompleteMetadata.isSome = true ∨
       size ≤ 0 ∨ INT_MAX < size)) ∧
    (tor.hasMetadata = false → tor.incompleteMetadata = none →
     0 < size → size ≤ INT_MAX →
      tr_torrentSetMetadataSizeHint tor size =
        ({ tor with incompleteMetadata := some (
            { metadata := List.replicate size.toNat 0
              metadata_size := size.toNat
              pieceCount := (size.toNat + (METADATA_PIECE_SIZE - 1)) / METADATA_PIECE_SIZE
              piecesNeeded := initialNodes
                ((size.toNat + (METADATA_PIECE_SIZE - 1)) / METADATA_PIECE_SIZE)
              : IncompleteMetadata }) },
         true)) := by
  constructor
  · by_cases h1 : tor.hasMetadata
    · simp [tr_torrentSetMetadataSizeHint, h1]
    · by_cases h2 : tor.incompleteMetadata.isSome
      · simp [tr_torrentSetMetadataSizeHint, h1, h2]
      · by_cases h3 : size ≤ 0 ∨ INT_MAX < size
        · have hn : (if size ≤ 0 ∨ size > INT_MAX then (-1 : Int)
              else size / (METADATA_PIECE_SIZE : Int) +
                (if size % (METADATA_PIECE_SIZE : Int) ≠ 0 then 1 else 0)) = -1 :=
            if_pos (by tauto)
          simp only [tr_torrentSetMetadataSizeHint, h1, h2, Bool.false_eq_true,
            if_false, hn]
          simpa using by tauto
        · push_neg at h3
          have hn : (if size ≤ 0 ∨ size > INT_MAX then (-1 : Int)
              else size / (METADATA_PIECE_SIZE : Int) +
                (if size % (METADATA_PIECE_SIZE : Int) ≠ 0 then 1 else 0)) =
              size / (METADATA_PIECE_SIZE : Int) +
                (if size % (METADATA_PIECE_SIZE : Int) ≠ 0 then 1 else 0) :=
            if_neg (by omega)
          have hpos : ¬(size / (METADATA_PIECE_SIZE : Int) +
              (if size % (METADATA_PIECE_SIZE : Int) ≠ 0 then 1 else 0) ≤ 0) := by
            simp only [METADATA_PIECE_SIZE]
            push_cast
            split <;> omega
          simp only [tr_torrentSetMetadataSizeHint, h1, h2, Bool.false_eq_true,
            if_false, hn, if_neg hpos]
          simpa using by omega
  · intro h1 h2 h3 h4
    have hn : (if size ≤ 0 ∨ size > INT_MAX then (-1 : Int)
        else size / (METADATA_PIECE_SIZE : Int) +
          (if size % (METADATA_PIECE_SIZE : Int) ≠ 0 then 1 else 0)) =
        size / (METADATA_PIECE_SIZE : Int) +
          (if size % (METADATA_PIECE_SIZE : Int) ≠ 0 then 1 else 0) :=
      if_neg (by omega)
    have hpos : ¬(size / (METADATA_PIECE_SIZE : Int) +
        (if size % (METADATA_PIECE_SIZE : Int) ≠ 0 then 1 else 0) ≤ 0) := by
      simp only [METADATA_PIECE_SIZE]
      push_cast
      split <;> omega
    have hceil : (size / (METADATA_PIECE_SIZE : Int) +
        (if size % (METADATA_PIECE_SIZE : Int) ≠ 0 then 1 else 0)).toNat =
        (size.toNat + (METADATA_PIECE_SIZE - 1)) / METADATA_PIECE_SIZE := by
      simp only [METADATA_PIECE_SIZE, INT_MAX] at *
      push_cast
      split <;> omega
    simp only [tr_torrentSetMetadataSizeHint, h1, h2, Bool.false_eq_true,
      if_false, hn, if_neg hpos, Option.isSome_none]
    rw [hceil]

/-- C4 witness: a size hint of 40000 bytes on a metadata-less torrent is
accepted and yields three pieces (scenario S3). -/
theorem C4_witness :
    tr_torrentSetMetadataSizeHint
        { hasMetadata := false, infoHash := [], incompleteMetadata := none,
          localError := false, isStopping := false, magnetVerify := false } 40000 =
      ({ hasMetadata := false, infoHash := [], incompleteMetadata := some (
          { metadata := List.replicate 40000 0
            metadata_size := 40000
            pieceCount := 3
            piecesNeeded := initialNodes 3 : IncompleteMetadata }),
         localError := false, isStopping := false, magnetVerify := false }, true) :=
  (C4_size_hint _ 40000).2 rfl rfl (by decide) (by decide)

/-! ## C3: metadata piece delivery guards -/

/-- C3: a `tr_torrentSetMetadataPiece` call while acquiring leaves the
state unchanged if the piece index is out of `[0, piece_count)`, or `len`
differs from the expected length (`METADATA_PIECE_SIZE` for every piece but
the last, `size - piece * METADATA_PIECE_SIZE` for the last), or the piece
is absent from the needed list; otherwise the `len` payload bytes are
copied into the buffer at offset `piece * 16384`, the entry for the piece
is removed from the needed list, and (only) when nothing remains the
installation sequence runs on the result. -/
theorem C3_deliver_guards (env : MetaEnv) (tor : MagnetTorrent)
    (m : IncompleteMetadata) (piece : Int) (data : List Nat) (len : Int)
    (hm : tor.incompleteMetadata = some m) :
    ((piece < 0 ∨ (m.pieceCount : Int) ≤ piece ∨ getPieceLength m piece ≠ len ∨
        getPieceNeededIndex m piece = -1) →
      tr_torrentSetMetadataPiece env tor piece data len = tor) ∧
    (getPieceLength m piece =
      (if piece + 1 = (m.pieceCount : Int) then
        (m.metadata_size : Int) - piece * (METADATA_PIECE_SIZE : Int)
       else (METADATA_PIECE_SIZE : Int))) ∧
    (getPieceNeededIndex m piece = -1 ↔ ∀ nd ∈ m.piecesNeeded, nd.piece ≠ piece) ∧
    (∀ idx : Nat, 0 ≤ piece → piece < (m.pieceCount : Int) →
      getPieceLength m piece = len →
      getPieceNeededIndex m piece = (idx : Int) →
      tr_torrentSetMetadataPiece env tor piece data len =
        (let m' : IncompleteMetadata :=
          { m with
            metadata := m.metadata.take (piece * (METADATA_PIECE_SIZE : Int)).toNat
              ++ data.take len.toNat
              ++ m.metadata.drop ((piece * (METADATA_PIECE_SIZE : Int)).toNat
                  + (data.take len.toNat).length)
            piecesNeeded := m.piecesNeeded.eraseIdx idx }
         if m'.piecesNeeded.length = 0 then installStep env tor m'
         else { tor with incompleteMetadata := some m' })) := by
  refine ⟨setMetadataPiece_drop env tor m piece data len hm, rfl,
    getPieceNeededIndex_eq_neg_one_iff m piece, ?_⟩
  intro idx hp0 hp1 hlen hidx
  exact setMetadataPiece_accept env tor m piece data len idx hm
    (by omega) (by omega) hlen ((getPieceNeededIndex_eq_coe m piece idx).mp hidx)

/-- C3 witness: scenario S4 — on the three-piece 40000-byte hint, piece 2
delivered with the wrong length (7233 instead of 7232) is dropped. -/
theorem C3_witness :
    tr_torrentSetMetadataPiece envAllOk
      { hasMetadata := false, infoHash := List.replicate 20 1,
        incompleteMetadata := some (
          { metadata := List.replicate 40000 0
            metadata_size := 40000
            pieceCount := 3
            piecesNeeded := initialNodes 3 : IncompleteMetadata }),
        localError := false, isStopping := false, magnetVerify := false }
      2 (List.replicate 7233 5) 7233 =
      { hasMetadata := false, infoHash := List.replicate 20 1,
        incompleteMetadata := some (
          { metadata := List.replicate 40000 0
            metadata_size := 40000
            pieceCount := 3
            piecesNeeded := initialNodes 3 : IncompleteMetadata }),
        localError := false, isStopping := false, magnetVerify := false } :=
  (C3_deliver_guards envAllOk _ _ 2 (List.replicate 7233 5) 7233 rfl).1
    (by right; right; left; decide)

/-! ## C10: state machine invariants -/

theorem initialNodes_invariants (n : Nat) :
    ((initialNodes n).map (fun nd => nd.piece)).Nodup ∧
    (∀ nd ∈ initialNodes n, 0 ≤ nd.piece ∧ nd.piece < (n : Int)) ∧
    (initialNodes n).length = n := by
  have hmap : (initialNodes n).map (fun nd => nd.piece) =
      (List.range n).map (fun (i : Nat) => (i : Int)) := by
    unfold initialNodes
    rw [List.map_map]
    rfl
  refine ⟨?_, ?_, ?_⟩
  · rw [hmap]
    exact (List.nodup_range n).map (fun a b h => by omega)
  · intro nd hnd
    unfold initialNodes at hnd
    simp only [List.mem_map, List.mem_range] at hnd
    obtain ⟨i, hi, rfl⟩ := hnd
    show 0 ≤ (i : Int) ∧ (i : Int) < (n : Int)
    omega
  · unfold initialNodes
    rw [List.length_map, List.length_range]

theorem InvM_resetNeeded (m : IncompleteMetadata) : InvM (resetNeeded m) := by
  obtain ⟨h1, h2, h3⟩ := initialNodes_invariants m.pieceCount
  exact ⟨h1, h2, le_of_eq h3⟩

/-- C10: every metadata-exchange operation — the size hint, piece
delivery (including the internal reset after a failed install), and the
next-request rotation — preserves the invariant that the needed entries
carry pairwise-distinct piece indices in `[0, pieceCount)` and number at
most `pieceCount`. -/
theorem C10_invariants (env : MetaEnv) (tor : MagnetTorrent) (size : Int)
    (piece : Int) (data : List Nat) (len : Int) (now : Int)
    (hInv : InvT tor) :
    InvT (tr_torrentSetMetadataSizeHint tor size).1 ∧
    InvT (tr_torrentSetMetadataPiece env tor piece data len) ∧
    InvT (tr_torrentGetNextMetadataRequest tor now).1 ∧
    (∀ m : IncompleteMetadata, InvM (resetNeeded m)) := by
  refine ⟨?_, ?_, ?_, InvM_resetNeeded⟩
  · rcases sizeHint_shape tor size with h | ⟨k, h⟩
    · rw [h]; exact hInv
    · rw [h]
      intro m' hm'
      simp only [Option.some.injEq] at hm'
      obtain ⟨h1, h2, h3⟩ := initialNodes_invariants k
      rw [← hm']
      exact ⟨h1, h2, le_of_eq h3⟩
  · cases hm : tor.incompleteMetadata with
    | none => unfold tr_torrentSetMetadataPiece; rw [hm]; exact hInv
    | some m =>
      have hIm := hInv m hm
      by_cases hr : piece < 0 ∨ (m.pieceCount : Int) ≤ piece
      · rw [setMetadataPiece_drop env tor m piece data len hm (by tauto)]
        exact hInv
      · by_cases hl : getPieceLength m piece = len
        · cases hfi : List.findIdx? (fun nd => nd.piece == piece) m.piecesNeeded with
          | none =>
            rw [setMetadataPiece_drop env tor m piece data len hm
              (by
                right; right; right
                unfold getPieceNeededIndex
                rw [hfi])]
            exact hInv
          | some idx =>
            rw [setMetadataPiece_accept env tor m piece data len idx hm
              (by omega) (by omega) hl hfi]
            have hsub : (m.piecesNeeded.eraseIdx idx).Sublist m.piecesNeeded :=
              List.eraseIdx_sublist m.piecesNeeded idx
            have hInvErase : InvM
                { m with
                  metadata := writeBytes m.metadata
                    (piece * (METADATA_PIECE_SIZE : Int)).toNat (data.take len.toNat)
                  piecesNeeded := m.piecesNeeded.eraseIdx idx } := by
              refine ⟨(hsub.map (fun nd => nd.piece)).nodup hIm.1, ?_, ?_⟩
              · intro nd hnd
                exact hIm.2.1 nd (hsub.subset hnd)
              · exact le_trans (hsub.length_le) hIm.2.2
            split
            · rcases installStep_incompleteMetadata env tor
                { m with
                  metadata := writeBytes m.metadata
                    (piece * (METADATA_PIECE_SIZE : Int)).toNat (data.take len.toNat)
                  piecesNeeded := m.piecesNeeded.eraseIdx idx } with hno | hre
              · intro m' hm'; rw [hno] at hm'; cases hm'
              · intro m' hm'
                rw [hre] at hm'
                simp only [Option.some.injEq] at hm'
                rw [← hm']
                exact InvM_resetNeeded _
            · intro m' hm'
              simp only [Option.some.injEq] at hm'
              rw [← hm']
              exact hInvErase
        · rw [setMetadataPiece_drop env tor m piece data len hm (by tauto)]
          exact hInv
  · cases hm : tor.incompleteMetadata with
    | none => unfold tr_torrentGetNextMetadataRequest; rw [hm]; exact hInv
    | some m =>
      have hIm := hInv m hm
      unfold tr_torrentGetNextMetadataRequest
      rw [hm]
      cases hnd : m.piecesNeeded with
      | nil => simp only [hnd]; exact hInv
      | cons head rest =>
        simp only [hnd]
        split
        · intro m' hm'
          simp only [Option.some.injEq] at hm'
          rw [← hm']
          have hmap : m.piecesNeeded.map (fun nd => nd.piece) =
              head.piece :: rest.map (fun nd => nd.piece) := by rw [hnd]; rfl
          have h1 := hIm.1
          rw [hmap, List.nodup_cons] at h1
          refine ⟨?_, ?_, ?_⟩
          · simp only [List.map_append, List.map_cons, List.map_nil]
            rw [List.nodup_append]
            refine ⟨h1.2, List.nodup_singleton _, ?_⟩
            intro a ha hb
            simp only [List.mem_singleton] at hb
            subst hb
            exact h1.1 ha
          · intro nd hnd'
            rcases List.mem_append.mp hnd' with hl | hr'
            · exact hIm.2.1 nd (by rw [hnd]; exact List.mem_cons_of_mem _ hl)
            · simp only [List.mem_singleton] at hr'
              subst hr'
              exact hIm.2.1 head (by rw [hnd]; exact List.mem_cons_self _ _)
          · have := hIm.2.2
            rw [hnd] at this
            simpa using this
        · exact hInv

/-- C10 witness: the invariant holds of the five-piece state and is
preserved by one step of each operation on it. -/
theorem C10_witness :
    InvT fiveTor ∧
    (InvT (tr_torrentSetMetadataSizeHint fiveTor 40000).1 ∧
     InvT (tr_torrentSetMetadataPiece envAllOk fiveTor 0 (List.replicate 16384 7) 16384) ∧
     InvT (tr_torrentGetNextMetadataRequest fiveTor 4).1 ∧
     (∀ m : IncompleteMetadata, InvM (resetNeeded m))) :=
  ⟨by decide, C10_invariants envAllOk fiveTor 40000 0 (List.replicate 16384 7) 16384 4 (by decide)⟩

/-! ## C7: duplicate metadata delivery -/

/-- After erasing the found entry from a duplicate-free needed list, the
piece is no longer found. -/
theorem findIdx_erase_none (l : List MetadataNode) (idx : Nat) (p : Int)
    (hnd : (l.map (fun nd => nd.piece)).Nodup)
    (hidx : List.findIdx? (fun nd => nd.piece == p) l = some idx) :
    List.findIdx? (fun nd => nd.piece == p) (l.eraseIdx idx) = none := by
  rw [List.findIdx?_eq_none_iff]
  intro x hx
  rw [List.findIdx?_eq_some_iff_getElem] at hidx
  obtain ⟨hilt, hp, _⟩ := hidx
  simp only [beq_iff_eq] at hp
  rw [List.mem_eraseIdx_iff_getElem] at hx
  obtain ⟨j, hj, hjne, rfl⟩ := hx
  simp only [beq_eq_false_iff_ne]
  intro heq
  have hjm : j < (l.map (fun nd => nd.piece)).length := by
    rw [List.length_map]; exact hj
  have him : idx < (l.map (fun nd => nd.piece)).length := by
    rw [List.length_map]; exact hilt
  have hgm : (l.map (fun nd => nd.piece))[j] = (l.map (fun nd => nd.piece))[idx] := by
    rw [List.getElem_map, List.getElem_map, heq, hp]
  exact hjne (hnd.getElem_inj_iff.mp hgm)

/-- C7 counterexample.  Two-piece torrent with only the last piece needed
and an installation that fails its checksum: the first delivery of piece 1
completes the set, the failed install repopulates `needed` with both
pieces, and the identical duplicate is then accepted again — so after two
deliveries `needed` is `[piece 0]`, while after one it is
`[piece 0, piece 1]`. -/
theorem C7_counterexample :
    (tr_torrentSetMetadataPiece envBadSum
        (tr_torrentSetMetadataPiece envBadSum twoTorLast 1 [7] 1)
        1 [7] 1).incompleteMetadata.map (fun m => m.piecesNeeded) ≠
      (tr_torrentSetMetadataPiece envBadSum twoTorLast 1 [7] 1
        ).incompleteMetadata.map (fun m => m.piecesNeeded) ∧
    (tr_torrentSetMetadataPiece envBadSum twoTorLast 1 [7] 1
      ).incompleteMetadata.map (fun m => m.piecesNeeded) =
      some (initialNodes 2) := by
  refine ⟨by decide, by decide⟩

/-- C7 (amended): delivering the same metadata piece twice leaves the state
(in particular the needed list) exactly as delivering it once — the
duplicate, being absent from `needed`, is dropped — provided the needed
entries carry distinct pieces (the machine's invariant) and the first
delivery does not trigger a failed installation.  When the first delivery
completes the set and the install fails, the reset puts the piece back into
`needed` and the duplicate is accepted again. -/
theorem C7_idempotent_amended (env : MetaEnv) (tor : MagnetTorrent)
    (m : IncompleteMetadata) (piece : Int) (data : List Nat) (len : Int)
    (hm : tor.incompleteMetadata = some m)
    (hnd : (m.piecesNeeded.map (fun nd => nd.piece)).Nodup)
    (hnofail : ∀ idx : Nat,
      List.findIdx? (fun nd => nd.piece == piece) m.piecesNeeded = some idx →
      m.piecesNeeded.eraseIdx idx = [] →
      installOk env tor
        { m with
          metadata := writeBytes m.metadata
            (piece * (METADATA_PIECE_SIZE : Int)).toNat (data.take len.toNat)
          piecesNeeded := m.piecesNeeded.eraseIdx idx } = true) :
    tr_torrentSetMetadataPiece env
        (tr_torrentSetMetadataPiece env tor piece data len) piece data len =
      tr_torrentSetMetadataPiece env tor piece data len := by
  by_cases hr : piece < 0 ∨ (m.pieceCount : Int) ≤ piece
  · have h1 := setMetadataPiece_drop env tor m piece data len hm (by tauto)
    rw [h1, h1]
  · by_cases hl : getPieceLength m piece = len
    · cases hfi : List.findIdx? (fun nd => nd.piece == piece) m.piecesNeeded with
      | none =>
        have h1 := setMetadataPiece_drop env tor m piece data len hm
          (by
            right; right; right
            unfold getPieceNeededIndex
            rw [hfi])
        rw [h1, h1]
      | some idx =>
        have h1 := setMetadataPiece_accept env tor m piece data len idx hm
          (by omega) (by omega) hl hfi
        by_cases hemp : (m.piecesNeeded.eraseIdx idx).length = 0
        · have hempty : m.piecesNeeded.eraseIdx idx = [] :=
            List.length_eq_zero.mp hemp
          have hok := hnofail idx hfi hempty
          rw [h1, if_pos hemp, installStep_of_installOk _ _ _ hok]
          unfold tr_torrentSetMetadataPiece installedSuccessState
          rfl
        · rw [h1, if_neg hemp]
          refine setMetadataPiece_drop env _ _ piece data len rfl ?_
          right; right; right
          unfold getPieceNeededIndex
          rw [show ({ m with
              metadata := writeBytes m.metadata
                (piece * (METADATA_PIECE_SIZE : Int)).toNat (data.take len.toNat)
              piecesNeeded := m.piecesNeeded.eraseIdx idx
              : IncompleteMetadata }).piecesNeeded = m.piecesNeeded.eraseIdx idx
            from rfl]
          rw [findIdx_erase_none m.piecesNeeded idx piece hnd hfi]
    · have h1 := setMetadataPiece_drop env tor m piece data len hm (by tauto)
      rw [h1, h1]

/-- C7 witness: on the one-piece torrent with a fully successful
installation, delivering the single piece twice equals delivering it
once. -/
theorem C7_witness :
    tr_torrentSetMetadataPiece envParseGood
        (tr_torrentSetMetadataPiece envParseGood oneTor 0 [9] 1) 0 [9] 1 =
      tr_torrentSetMetadataPiece envParseGood oneTor 0 [9] 1 :=
  C7_idempotent_amended envParseGood oneTor _ 0 [9] 1 rfl (by decide)
    (by
      intro idx h1 _
      have h1' : (some 0 : Option Nat) = some idx := by rw [← h1]; rfl
      injection h1' with h
      subst h
      decide)

/-! ## C2: installation checksum failure and retry -/

theorem writeBytes_length (buf : List Nat) (off : Nat) (src : List Nat)
    (h : off + src.length ≤ buf.length) :
    (writeBytes buf off src).length = buf.length := by
  unfold writeBytes
  rw [List.length_append, List.length_append, List.length_take, List.length_drop]
  omega

theorem nodesFrom_cons (l n : Nat) (h : l < n) :
    nodesFrom l n = ⟨0, (l : Int)⟩ :: nodesFrom (l + 1) n := by
  unfold nodesFrom
  have h1 : n - l = (n - (l + 1)) + 1 := by omega
  rw [h1, List.range'_succ]
  rfl

theorem nodesFrom_length (l n : Nat) : (nodesFrom l n).length = n - l := by
  unfold nodesFrom
  rw [List.length_map, List.length_range']

theorem assembledFrom_cons (dataFn : Nat → List Nat) (l n : Nat) (h : l < n) :
    assembledFrom dataFn l n = dataFn l ++ assembledFrom dataFn (l + 1) n := by
  unfold assembledFrom
  have h1 : n - l = (n - (l + 1)) + 1 := by omega
  rw [h1, List.range'_succ, List.map_cons, List.flatten_cons]

theorem assembledFrom_last (dataFn : Nat → List Nat) (n : Nat) :
    assembledFrom dataFn n n = [] := by
  unfold assembledFrom
  rw [Nat.sub_self]
  rfl

theorem deliverRun_cons (env : MetaEnv) (tor : MagnetTorrent)
    (dataFn : Nat → List Nat) (i : Nat) (rest : List Nat) :
    deliverRun env tor dataFn (i :: rest) =
      deliverRun env (tr_torrentSetMetadataPiece env tor (i : Int) (dataFn i)
        ((dataFn i).length : Int)) dataFn rest := rfl

/-- In-order redelivery: if the needed list holds exactly pieces
`l, ..., n-1` (none yet requested), delivering them in order with the
correct lengths assembles `take (l * 16384) buffer ++ data_l ++ ... ++
data_(n-1)`; when the environment accepts that buffer (checksum, parse,
container, metainfo, block size), the run ends in the installed state. -/
theorem deliverRun_installs (env : MetaEnv) (dataFn : Nat → List Nat) (n s : Nat)
    (hs1 : (n - 1) * METADATA_PIECE_SIZE < s) (hs2 : s ≤ n * METADATA_PIECE_SIZE)
    (hlen : ∀ i, i < n → (dataFn i).length = expectedLen s n i) :
    ∀ (k l : Nat) (tor : MagnetTorrent) (m : IncompleteMetadata),
      l + k + 1 = n →
      tor.incompleteMetadata = some m →
      m.pieceCount = n → m.metadata_size = s → m.metadata.length = s →
      m.piecesNeeded = nodesFrom l n →
      env.sha1 (m.metadata.take (l * METADATA_PIECE_SIZE) ++
        assembledFrom dataFn l n) = tor.infoHash →
      env.parseOk (m.metadata.take (l * METADATA_PIECE_SIZE) ++
        assembledFrom dataFn l n) = true →
      env.containerOk = true → env.metainfoOk = true → env.blockSizeOk = true →
      deliverRun env tor dataFn (List.range' l (n - l)) =
        installedSuccessState tor := by
  intro k
  induction k with
  | zero =>
    intro l tor m hln hm hpc hms hml hpn hsha hparse hcont hmeta hblock
    have hlt : l < n := by omega
    have hcons := nodesFrom_cons l n hlt
    have hdl : (dataFn l).length = expectedLen s n l := hlen l hlt
    have hfi : List.findIdx? (fun nd => nd.piece == (l : Int)) m.piecesNeeded =
        some 0 := by
      rw [hpn, hcons, List.findIdx?_cons, if_pos (by simp)]
    have hglen : getPieceLength m (l : Int) = ((dataFn l).length : Int) := by
      unfold getPieceLength
      rw [hpc, hms, hdl]
      unfold expectedLen
      simp only [METADATA_PIECE_SIZE] at *
      split <;> omega
    have haccept := setMetadataPiece_accept env tor m (l : Int) (dataFn l)
      ((dataFn l).length : Int) 0 hm (by omega) (by rw [hpc]; omega) hglen hfi
    have hoff : ((l : Int) * (METADATA_PIECE_SIZE : Int)).toNat =
        l * METADATA_PIECE_SIZE := by
      simp only [METADATA_PIECE_SIZE]; omega
    have htake : (dataFn l).take (((dataFn l).length : Int)).toNat = dataFn l := by
      simp
    rw [hoff, htake] at haccept
    have hrange : List.range' l (n - l) = [l] := by
      have h1 : n - l = 1 := by omega
      rw [h1]
      rfl
    rw [hrange, deliverRun_cons, haccept]
    have herase : m.piecesNeeded.eraseIdx 0 = nodesFrom (l + 1) n := by
      rw [hpn, hcons, List.eraseIdx_cons_zero]
    have hempty : (m.piecesNeeded.eraseIdx 0).length = 0 := by
      rw [herase, nodesFrom_length]
      omega
    rw [if_pos hempty]
    show installStep env tor _ = installedSuccessState tor
    have hbuf : writeBytes m.metadata (l * METADATA_PIECE_SIZE) (dataFn l) =
        m.metadata.take (l * METADATA_PIECE_SIZE) ++ assembledFrom dataFn l n := by
      rw [assembledFrom_cons dataFn l n hlt]
      have h0 : l + 1 = n := by omega
      rw [h0, assembledFrom_last, List.append_nil]
      unfold writeBytes
      have hD : l * METADATA_PIECE_SIZE + (dataFn l).length = s := by
        rw [hdl]
        unfold expectedLen
        rw [if_pos h0]
        simp only [METADATA_PIECE_SIZE] at *
        omega
      rw [hD, List.drop_eq_nil_of_le (by omega), List.append_nil]
    have hok : installOk env tor
        { m with
          metadata := writeBytes m.metadata (l * METADATA_PIECE_SIZE) (dataFn l)
          piecesNeeded := m.piecesNeeded.eraseIdx 0 } = true := by
      simp only [installOk]
      rw [hbuf]
      simp [hsha, hparse, hcont, hmeta, hblock]
    rw [installStep_of_installOk _ _ _ hok]
  | succ k ih =>
    intro l tor m hln hm hpc hms hml hpn hsha hparse hcont hmeta hblock
    have hlt : l < n := by omega
    have hnotlast : l + 1 ≠ n := by omega
    have hcons := nodesFrom_cons l n hlt
    have hdl : (dataFn l).length = expectedLen s n l := hlen l hlt
    have hdlM : (dataFn l).length = METADATA_PIECE_SIZE := by
      rw [hdl]
      unfold expectedLen
      rw [if_neg hnotlast]
    have hfi : List.findIdx? (fun nd => nd.piece == (l : Int)) m.piecesNeeded =
        some 0 := by
      rw [hpn, hcons, List.findIdx?_cons, if_pos (by simp)]
    have hglen : getPieceLength m (l : Int) = ((dataFn l).length : Int) := by
      unfold getPieceLength
      rw [hpc, hms, hdl]
      unfold expectedLen
      simp only [METADATA_PIECE_SIZE] at *
      split <;> omega
    have haccept := setMetadataPiece_accept env tor m (l : Int) (dataFn l)
      ((dataFn l).length : Int) 0 hm (by omega) (by rw [hpc]; omega) hglen hfi
    have hoff : ((l : Int) * (METADATA_PIECE_SIZE : Int)).toNat =
        l * METADATA_PIECE_SIZE := by
      simp only [METADATA_PIECE_SIZE]; omega
    have htake : (dataFn l).take (((dataFn l).length : Int)).toNat = dataFn l := by
      simp
    rw [hoff, htake] at haccept
    have hrange : List.range' l (n - l) = l :: List.range' (l + 1) (n - (l + 1)) := by
      have h1 : n - l = (n - (l + 1)) + 1 := by omega
      rw [h1, List.range'_succ]
    rw [hrange, deliverRun_cons, haccept]
    have herase : m.piecesNeeded.eraseIdx 0 = nodesFrom (l + 1) n := by
      rw [hpn, hcons, List.eraseIdx_cons_zero]
    have hnotempty : ¬(m.piecesNeeded.eraseIdx 0).length = 0 := by
      rw [herase, nodesFrom_length]
      omega
    rw [if_neg hnotempty]
    have hbound : l * METADATA_PIECE_SIZE + (dataFn l).length ≤ m.metadata.length := by
      rw [hdlM, hml]
      simp only [METADATA_PIECE_SIZE] at *
      omega
    have hlentake : (m.metadata.take (l * METADATA_PIECE_SIZE)).length =
        l * METADATA_PIECE_SIZE := by
      rw [List.length_take]
      simp only [METADATA_PIECE_SIZE] at *
      omega
    have hstep : (writeBytes m.metadata (l * METADATA_PIECE_SIZE) (dataFn l)).take
          ((l + 1) * METADATA_PIECE_SIZE) ++ assembledFrom dataFn (l + 1) n =
        m.metadata.take (l * METADATA_PIECE_SIZE) ++ assembledFrom dataFn l n := by
      unfold writeBytes
      rw [List.append_assoc (m.metadata.take (l * METADATA_PIECE_SIZE)) (dataFn l)
        (m.metadata.drop (l * METADATA_PIECE_SIZE + (dataFn l).length))]
      have h1 : (l + 1) * METADATA_PIECE_SIZE =
          (m.metadata.take (l * METADATA_PIECE_SIZE)).length + METADATA_PIECE_SIZE := by
        rw [hlentake]
        ring
      rw [h1, List.take_append]
      have h2 : METADATA_PIECE_SIZE = (dataFn l).length + 0 := by omega
      rw [h2, List.take_append, List.take_zero, List.append_nil,
        assembledFrom_cons dataFn l n hlt, List.append_assoc]
    exact ih (l + 1)
      { tor with incompleteMetadata := some (
          { m with
            metadata := writeBytes m.metadata (l * METADATA_PIECE_SIZE) (dataFn l)
            piecesNeeded := m.piecesNeeded.eraseIdx 0 }) }
      { m with
        metadata := writeBytes m.metadata (l * METADATA_PIECE_SIZE) (dataFn l)
        piecesNeeded := m.piecesNeeded.eraseIdx 0 }
      (by omega) rfl hpc hms
      (by
        show (writeBytes m.metadata (l * METADATA_PIECE_SIZE) (dataFn l)).length = s
        rw [writeBytes_length m.metadata (l * METADATA_PIECE_SIZE) (dataFn l) hbound,
          hml])
      herase
      (by
        show env.sha1 ((writeBytes m.metadata (l * METADATA_PIECE_SIZE)
            (dataFn l)).take ((l + 1) * METADATA_PIECE_SIZE) ++
          assembledFrom dataFn (l + 1) n) = tor.infoHash
        rw [hstep]
        exact hsha)
      (by
        show env.parseOk ((writeBytes m.metadata (l * METADATA_PIECE_SIZE)
            (dataFn l)).take ((l + 1) * METADATA_PIECE_SIZE) ++
          assembledFrom dataFn (l + 1) n) = true
        rw [hstep]
        exact hparse)
      hcont hmeta hblock

/-- C2 counterexample.  With an installation environment whose SHA-1
recognises the one-byte buffer `[9]` as the torrent's infohash but whose
benc parse rejects every buffer: the first complete delivery (bytes `[7]`,
wrong checksum) resets as the claim says, but the complete re-delivery of
`[9]` — whose SHA-1 *does* match the infohash — still fails to install
(the parse step also has to succeed), leaving the machine in ACQUIRING
with the state machine intact rather than INSTALLED. -/
theorem C2_counterexample :
    envParseFail.sha1 [9] = oneTor.infoHash ∧
    (tr_torrentSetMetadataPiece envParseFail
        (tr_torrentSetMetadataPiece envParseFail oneTor 0 [7] 1) 0 [9] 1
      ).incompleteMetadata.isSome = true ∧
    (tr_torrentSetMetadataPiece envParseFail
        (tr_torrentSetMetadataPiece envParseFail oneTor 0 [7] 1) 0 [9] 1
      ).hasMetadata = false := by
  refine ⟨by decide, by decide, by decide⟩

/-- C2 (amended): when the last outstanding piece is delivered and the
SHA-1 of the assembled buffer differs from the infohash, the machine
repopulates `needed` with every piece (`last_requested_at = 0`), stays in
ACQUIRING and keeps the buffer; and a subsequent complete in-order
re-delivery of all pieces with bytes whose SHA-1 matches the infohash —
and which the remaining installation steps accept (benc parse, container
load, metainfo parse, nonzero block size) — installs successfully without
any intermediate reset by the caller. -/
theorem C2_install_retry_amended :
    (∀ (env : MetaEnv) (tor : MagnetTorrent) (m : IncompleteMetadata)
        (piece : Int) (data : List Nat) (len : Int) (idx : Nat),
      tor.incompleteMetadata = some m →
      ¬piece < 0 → piece < (m.pieceCount : Int) →
      getPieceLength m piece = len →
      List.findIdx? (fun nd => nd.piece == piece) m.piecesNeeded = some idx →
      m.piecesNeeded.eraseIdx idx = [] →
      env.sha1 (writeBytes m.metadata (piece * (METADATA_PIECE_SIZE : Int)).toNat
        (data.take len.toNat)) ≠ tor.infoHash →
      tr_torrentSetMetadataPiece env tor piece data len =
        { tor with incompleteMetadata := some (
            { m with
              metadata := writeBytes m.metadata
                (piece * (METADATA_PIECE_SIZE : Int)).toNat (data.take len.toNat)
              piecesNeeded := initialNodes m.pieceCount }) }) ∧
    (∀ (env : MetaEnv) (dataFn : Nat → List Nat) (n s : Nat)
        (tor : MagnetTorrent) (m : IncompleteMetadata),
      0 < n → (n - 1) * METADATA_PIECE_SIZE < s → s ≤ n * METADATA_PIECE_SIZE →
      (∀ i, i < n → (dataFn i).length = expectedLen s n i) →
      tor.incompleteMetadata = some m →
      m.pieceCount = n → m.metadata_size = s → m.metadata.length = s →
      m.piecesNeeded = initialNodes n →
      env.sha1 (assembledFrom dataFn 0 n) = tor.infoHash →
      env.parseOk (assembledFrom dataFn 0 n) = true →
      env.containerOk = true → env.metainfoOk = true → env.blockSizeOk = true →
      deliverRun env tor dataFn (List.range n) = installedSuccessState tor) := by
  constructor
  · intro env tor m piece data len idx hm h0 h1 hlenq hfi hempty hsha
    rw [setMetadataPiece_accept env tor m piece data len idx hm h0 (by omega)
      hlenq hfi]
    rw [if_pos (by rw [hempty]; rfl)]
    have hbeq : (env.sha1 (writeBytes m.metadata
        (piece * (METADATA_PIECE_SIZE : Int)).toNat (data.take len.toNat))
        == tor.infoHash) = false := beq_eq_false_iff_ne.mpr hsha
    unfold installStep
    simp only [hbeq, Bool.false_and]
    rfl
  · intro env dataFn n s tor m hn hs1 hs2 hlen hm hpc hms hml hpn hsha hparse
      hcont hmeta hblock
    have hpn' : m.piecesNeeded = nodesFrom 0 n := by
      rw [hpn]
      unfold initialNodes nodesFrom
      rw [List.range_eq_range', Nat.sub_zero]
    have hrange : List.range n = List.range' 0 (n - 0) := by
      rw [List.range_eq_range', Nat.sub_zero]
    rw [hrange]
    exact deliverRun_installs env dataFn n s hs1 hs2 hlen (n - 1) 0 tor m
      (by omega) hm hpc hms hml hpn'
      (by rw [Nat.zero_mul, List.take_zero, List.nil_append]; exact hsha)
      (by rw [Nat.zero_mul, List.take_zero, List.nil_append]; exact hparse)
      hcont hmeta hblock

/-- C2 witness: on the one-piece torrent, the wrong bytes `[7]` fail the
checksum and reset the machine; re-delivering the correct bytes `[9]`
through the accepting environment installs. -/
theorem C2_witness :
    tr_torrentSetMetadataPiece envParseGood oneTor 0 [7] 1 =
      { oneTor with incompleteMetadata := some (
          { metadata := writeBytes [0] 0 [7]
            metadata_size := 1
            pieceCount := 1
            piecesNeeded := initialNodes 1 : IncompleteMetadata }) } ∧
    deliverRun envParseGood oneTor (fun _ => [9]) (List.range 1) =
      installedSuccessState oneTor :=
  ⟨(C2_install_retry_amended.1 envParseGood oneTor _ 0 [7] 1 0 rfl
      (by decide) (by decide) (by decide) (by decide) (by decide) (by decide)),
   (C2_install_retry_amended.2 envParseGood (fun _ => [9]) 1 1 oneTor _
      (by decide) (by decide) (by decide) (by decide) rfl rfl rfl (by decide)
      rfl (by decide) (by decide) rfl rfl rfl)⟩

/-! ## C5: the file locator -/

theorem layout_offset_mono (files : List TrFile) (total : Nat)
    (h : layoutOk files total) :
    ∀ i j, i ≤ j → j < files.length →
      (fileAt files i).offset ≤ (fileAt files j).offset := by
  intro i j hij hj
  induction j with
  | zero =>
    have : i = 0 := by omega
    subst this
    exact le_refl _
  | succ j ihj =>
    rcases Nat.lt_or_ge i (j + 1) with hlt | hge
    · have hstep := h.2.2.1 j (by omega)
      have hprev := ihj (by omega) (by omega)
      omega
    · have : i = j + 1 := by omega
      subst this
      exact le_refl _

theorem layout_offset_add_le (files : List TrFile) (total : Nat)
    (h : layoutOk files total) :
    ∀ i j, i < j → j < files.length →
      (fileAt files i).offset + (fileAt files i).length ≤
        (fileAt files j).offset := by
  intro i j hij hj
  have hstep := h.2.2.1 i (by omega)
  have hmono := layout_offset_mono files total h (i + 1) j (by omega) hj
  omega

theorem layout_container (files : List TrFile) (total : Nat)
    (h : layoutOk files total) (g : Nat) (hg : g < total) :
    ∃ j, j < files.length ∧ (fileAt files j).offset ≤ g ∧
      g < (fileAt files j).offset + (fileAt files j).length := by
  have hlen0 : 0 < files.length := by
    cases hfc : files with
    | nil => exact absurd hfc h.1
    | cons a as => simp
  have hP0 : (fileAt files 0).offset ≤ g := by
    rw [h.2.1]
    exact Nat.zero_le g
  have hPj := Nat.findGreatest_spec
    (P := fun k => (fileAt files k).offset ≤ g)
    (Nat.zero_le (files.length - 1)) hP0
  have hjle : Nat.findGreatest (fun k => (fileAt files k).offset ≤ g)
      (files.length - 1) ≤ files.length - 1 := Nat.findGreatest_le _
  refine ⟨Nat.findGreatest (fun k => (fileAt files k).offset ≤ g)
    (files.length - 1), by omega, hPj, ?_⟩
  rcases Nat.lt_or_ge (Nat.findGreatest (fun k => (fileAt files k).offset ≤ g)
      (files.length - 1)) (files.length - 1) with hlt | hge
  · have hnot := Nat.findGreatest_is_greatest
      (P := fun k => (fileAt files k).offset ≤ g) (n := files.length - 1)
      (k := Nat.findGreatest (fun k => (fileAt files k).offset ≤ g)
        (files.length - 1) + 1) (by omega) (by omega)
    have hstep := h.2.2.1
      (Nat.findGreatest (fun k => (fileAt files k).offset ≤ g)
        (files.length - 1)) (by omega)
    simp only [not_le] at hnot
    omega
  · have heq : Nat.findGreatest (fun k => (fileAt files k).offset ≤ g)
        (files.length - 1) = files.length - 1 := by omega
    have htot := h.2.2.2
    rw [heq]
    omega

theorem bsearchLoop_finds (g : Nat) (files : List TrFile) (j : Nat)
    (hpart : ∀ i, i < files.length →
      (i < j → compareOffsetToFile g (fileAt files i) = 1) ∧
      (i = j → compareOffsetToFile g (fileAt files i) = 0) ∧
      (j < i → compareOffsetToFile g (fileAt files i) = -1)) :
    ∀ fuel l u, u - l ≤ fuel → l ≤ j → j < u → u ≤ files.length →
      bsearchLoop g files fuel l u = some j := by
  intro fuel
  induction fuel with
  | zero => intro l u h1 h2 h3 _; omega
  | succ fuel ihf =>
    intro l u hfuel hlj hju hu
    have hlu : l < u := by omega
    simp only [bsearchLoop]
    rw [if_pos hlu]
    rcases Nat.lt_trichotomy ((l + u) / 2) j with hc | hc | hc
    · rw [(hpart ((l + u) / 2) (by omega)).1 hc]
      rw [if_neg (by norm_num), if_pos (by norm_num)]
      exact ihf ((l + u) / 2 + 1) u (by omega) (by omega) hju hu
    · rw [(hpart ((l + u) / 2) (by omega)).2.1 hc]
      rw [if_neg (by norm_num), if_neg (by norm_num)]
      exact congrArg some hc
    · rw [(hpart ((l + u) / 2) (by omega)).2.2 hc]
      rw [if_pos (by norm_num)]
      exact ihf l ((l + u) / 2) (by omega) hlj hc (by omega)

theorem bsearchGo_finds (g : Nat) (files : List TrFile) (j : Nat)
    (hpart : ∀ i, i < files.length →
      (i < j → compareOffsetToFile g (fileAt files i) = 1) ∧
      (i = j → compareOffsetToFile g (fileAt files i) = 0) ∧
      (j < i → compareOffsetToFile g (fileAt files i) = -1)) :
    ∀ l u, l ≤ j → j < u → u ≤ files.length →
      bsearchGo g files l u = some j := by
  intro l u h1 h2 h3
  unfold bsearchGo
  exact bsearchLoop_finds g files j hpart (u - l) l u (le_refl _) h1 h2 h3

/-- C5: under the layout invariants, for every global byte offset
`g = piece * piece_size + piece_offset` with `g < total_size`,
`tr_ioFindFileLocation` returns a pair `(file_index, file_offset)` with
`files[file_index].offset + file_offset = g` and
`file_offset < files[file_index].length`; in particular the returned file
has nonzero length, so a zero-length file is never returned even when its
offset equals `g`. -/
theorem C5_locator (files : List TrFile) (total : Nat)
    (pieceSize piece pieceOffset : Nat)
    (hlay : layoutOk files total)
    (hg : piece * pieceSize + pieceOffset < total) :
    ∃ i off, tr_ioFindFileLocation files pieceSize piece pieceOffset =
        some (i, off) ∧
      (fileAt files i).offset + off = piece * pieceSize + pieceOffset ∧
      off < (fileAt files i).length ∧ 0 < (fileAt files i).length := by
  obtain ⟨j, hjlen, hjle, hjlt⟩ :=
    layout_container files total hlay (piece * pieceSize + pieceOffset) hg
  have hpart : ∀ i, i < files.length →
      (i < j → compareOffsetToFile (piece * pieceSize + pieceOffset)
        (fileAt files i) = 1) ∧
      (i = j → compareOffsetToFile (piece * pieceSize + pieceOffset)
        (fileAt files i) = 0) ∧
      (j < i → compareOffsetToFile (piece * pieceSize + pieceOffset)
        (fileAt files i) = -1) := by
    intro i hi
    refine ⟨?_, ?_, ?_⟩
    · intro hij
      have h2 := layout_offset_add_le files total hlay i j hij hjlen
      unfold compareOffsetToFile
      rw [if_neg (by omega), if_pos (by omega)]
    · intro hij
      subst hij
      unfold compareOffsetToFile
      rw [if_neg (by omega), if_neg (by omega)]
    · intro hij
      have h2 := layout_offset_add_le files total hlay j i hij hi
      unfold compareOffsetToFile
      rw [if_pos (by omega)]
  have hfound := bsearchGo_finds (piece * pieceSize + pieceOffset) files j hpart
    0 files.length (Nat.zero_le j) hjlen (le_refl _)
  refine ⟨j, piece * pieceSize + pieceOffset - (fileAt files j).offset, ?_,
    by omega, by omega, by omega⟩
  simp only [tr_ioFindFileLocation, hfound]

/-- C5 witness: scenario S1 — on files `[A: 1000, B: 0, C: 2000]` with
piece size 512, the offset `1 * 512 + 488 = 1000` lands in file `C` (index
2) at offset 0, skipping the zero-length `B`. -/
theorem C5_witness :
    layoutOk filesS1 3000 ∧
    ∃ i off, tr_ioFindFileLocation filesS1 512 1 488 = some (i, off) ∧
      (fileAt filesS1 i).offset + off = 1 * 512 + 488 ∧
      off < (fileAt filesS1 i).length ∧ 0 < (fileAt filesS1 i).length :=
  ⟨by decide, C5_locator filesS1 3000 512 1 488 (by decide) (by decide)⟩

/-! ## C8: prefetch error behaviour -/

/-- C8 counterexample: prefetching a range of a 100-byte file that is
neither cached nor present on disk returns `ENOENT` (2), not success — the
prefetch path reports the missing file to its caller. -/
theorem C8_counterexample :
    tr_ioPrefetch ioMissing filesOne 100 1 0 0 50 = ENOENT ∧ ENOENT ≠ 0 :=
  ⟨by decide, by decide⟩

theorem readOrWriteBytes_prefetch_cached (env : IoEnv) (files : List TrFile)
    (fileIndex fileOffset buflen : Nat) (hc : env.cached fileIndex false = true) :
    readOrWriteBytes env files 1 fileIndex fileOffset buflen = 0 := by
  unfold readOrWriteBytes
  by_cases h0 : (fileAt files fileIndex).length = 0
  · rw [if_pos h0]
  · rw [if_neg h0]
    simp [hc]

theorem remSum_cons (files : List TrFile) (i : Nat) (h : i < files.length) :
    remSum files i = (fileAt files i).length + remSum files (i + 1) := by
  unfold remSum fileAt
  rw [List.drop_eq_getElem_cons h, List.map_cons, List.sum_cons,
    List.getD_eq_getElem files default h]

theorem remSum_total (files : List TrFile) (total : Nat)
    (hlay : layoutOk files total) :
    ∀ i, i < files.length →
      (fileAt files i).offset + remSum files i = total := by
  have main : ∀ fuel i, files.length - i ≤ fuel → i < files.length →
      (fileAt files i).offset + remSum files i = total := by
    intro fuel
    induction fuel with
    | zero => intro i h1 h2; omega
    | succ fuel ihf =>
      intro i h1 h2
      rcases Nat.lt_or_ge (i + 1) files.length with hlt | hge
      · have hstep := hlay.2.2.1 i (by omega)
        have hrec := ihf (i + 1) (by omega) hlt
        have hrs := remSum_cons files i h2
        omega
      · have heq : i = files.length - 1 := by omega
        have htot := hlay.2.2.2
        have hrs := remSum_cons files i h2
        have hzero : remSum files (i + 1) = 0 := by
          unfold remSum
          rw [List.drop_eq_nil_of_le (by omega)]
          rfl
        rw [heq] at *
        omega
  intro i hi
  exact main (files.length - i) i (le_refl _) hi

theorem rwLoop_prefetch_cached (env : IoEnv) (files : List TrFile) :
    ∀ fuel fileIndex fileOffset buflen,
      (∀ i, fileIndex ≤ i → i < files.length → env.cached i false = true) →
      files.length - fileIndex < fuel →
      fileOffset + buflen ≤ remSum files fileIndex →
      rwLoop env files 1 fuel fileIndex fileOffset buflen = 0 := by
  intro fuel
  induction fuel with
  | zero => intro _ _ _ _ h1 _; omega
  | succ fuel ihf =>
    intro fileIndex fileOffset buflen hc _ hrem
    simp only [rwLoop]
    by_cases hb : buflen = 0
    · rw [if_pos hb]
    · rw [if_neg hb]
      have hfi : fileIndex < files.length := by
        by_contra hge
        push_neg at hge
        have hz : remSum files fileIndex = 0 := by
          unfold remSum
          rw [List.drop_eq_nil_of_le hge]
          rfl
        omega
      rw [if_pos hfi]
      rw [readOrWriteBytes_prefetch_cached env files fileIndex fileOffset _
        (hc fileIndex (le_refl _) hfi)]
      rw [if_pos rfl]
      apply ihf
      · intro i h1 h2
        exact hc i (by omega) h2
      · omega
      · have hrs := remSum_cons files fileIndex hfi
        omega

/-- C8 (amended): `tr_ioPrefetch` is not silent about every failure — it
propagates file-open failures to its caller.  When the range starts in a
nonzero-length file whose handle is not cached and which does not exist on
disk, the call returns `ENOENT`; when that file exists but
`tr_fdFileCheckout` fails, the call returns the checkout's errno.  Only the
advise operation itself is fire-and-forget: its outcome is discarded (the
model's environment has no field for it), so with a cached handle for every
file from the locator's starting file onward a prefetch of an in-range span
returns success. -/
theorem C8_prefetch_amended (env : IoEnv) (files : List TrFile) (total : Nat)
    (pieceSize pieceCount piece pieceOffset buflen fi fo : Nat)
    (hfi : fi < files.length) :
    (tr_ioFindFileLocation files pieceSize piece pieceOffset = some (fi, fo) →
      piece < pieceCount → buflen ≠ 0 →
      (fileAt files fi).length ≠ 0 →
      env.cached fi false = false → env.fileExists fi = false →
      tr_ioPrefetch env files pieceSize pieceCount piece pieceOffset buflen =
        ENOENT) ∧
    (∀ e : Int,
      tr_ioFindFileLocation files pieceSize piece pieceOffset = some (fi, fo) →
      piece < pieceCount → buflen ≠ 0 →
      (fileAt files fi).length ≠ 0 →
      env.cached fi false = false → env.fileExists fi = true →
      env.checkoutErrno fi false = some e → e ≠ 0 →
      tr_ioPrefetch env files pieceSize pieceCount piece pieceOffset buflen = e) ∧
    (layoutOk files total →
      piece * pieceSize + pieceOffset + buflen ≤ total →
      tr_ioFindFileLocation files pieceSize piece pieceOffset = some (fi, fo) →
      (fileAt files fi).offset + fo = piece * pieceSize + pieceOffset →
      piece < pieceCount →
      (∀ i, fi ≤ i → i < files.length → env.cached i false = true) →
      tr_ioPrefetch env files pieceSize pieceCount piece pieceOffset buflen = 0) := by
  refine ⟨?_, ?_, ?_⟩
  · intro hlocate hpiece hbuf hlen0 hcached hexists
    unfold tr_ioPrefetch readOrWritePiece
    rw [if_neg (by omega)]
    simp only [hlocate]
    simp only [rwLoop]
    rw [if_neg hbuf, if_pos hfi]
    have hrwb : readOrWriteBytes env files 1 fi fo
        (min buflen ((fileAt files fi).length - fo)) = ENOENT := by
      unfold readOrWriteBytes
      rw [if_neg hlen0]
      simp [hcached, hexists, ENOENT]
    rw [hrwb]
    rw [if_neg (by norm_num [ENOENT])]
  · intro e hlocate hpiece hbuf hlen0 hcached hexists hchk hne
    unfold tr_ioPrefetch readOrWritePiece
    rw [if_neg (by omega)]
    simp only [hlocate]
    simp only [rwLoop]
    rw [if_neg hbuf, if_pos hfi]
    have hrwb : readOrWriteBytes env files 1 fi fo
        (min buflen ((fileAt files fi).length - fo)) = e := by
      unfold readOrWriteBytes
      rw [if_neg hlen0]
      simp [hcached, hexists, hchk, hne]
    rw [hrwb]
    rw [if_neg hne]
  · intro hlay hrange hlocate hoffs hpiece hcall
    unfold tr_ioPrefetch readOrWritePiece
    rw [if_neg (by omega)]
    simp only [hlocate]
    apply rwLoop_prefetch_cached env files (files.length + 1) fi fo buflen hcall
      (by omega)
    have htot := remSum_total files total hlay fi hfi
    omega

/-- C8 witness: a failed checkout (errno 13) on an uncached but existing
100-byte file is returned by the prefetch, and with every handle from the
starting file onward cached, prefetching 100 bytes from global offset 1000
of the S1 layout (landing in file `C`) returns success. -/
theorem C8_witness :
    tr_ioPrefetch ioCheckoutFail filesOne 100 1 0 0 50 = 13 ∧
    tr_ioPrefetch ioCached filesS1 512 4 1 488 100 = 0 :=
  ⟨(C8_prefetch_amended ioCheckoutFail filesOne 100 100 1 0 0 50 0 0
      (by decide)).2.1 13 (by decide) (by decide) (by decide) (by decide)
      (by decide) (by decide) (by decide) (by decide),
   (C8_prefetch_amended ioCached filesS1 3000 512 4 1 488 100 2 0
      (by decide)).2.2
    (by decide) (by decide) (by decide) (by decide) (by decide)
    (fun _ _ _ => rfl)⟩

/-! ## C6: piece verification -/

theorem recalcGo_eq_pieceStream (env : HashEnv) (blockSize : Nat)
    (hbs : 0 < blockSize) :
    ∀ fuel offset bytesLeft acc, bytesLeft ≤ fuel →
      recalcGo env blockSize fuel offset bytesLeft acc =
        (pieceStream env blockSize fuel offset bytesLeft).map
          (fun rest => env.sha1 (acc ++ rest)) := by
  intro fuel
  induction fuel with
  | zero =>
    intro offset bytesLeft acc hb
    have h0 : bytesLeft = 0 := by omega
    subst h0
    simp [recalcGo, pieceStream]
  | succ fuel ihf =>
    intro offset bytesLeft acc hb
    by_cases h0 : bytesLeft = 0
    · subst h0
      simp [recalcGo, pieceStream]
    · simp only [recalcGo, pieceStream]
      rw [if_neg h0, if_neg h0, if_neg (by omega), if_neg (by omega)]
      cases hr : env.readBlock offset (min bytesLeft blockSize) with
      | none => simp
      | some blk =>
        simp only
        rw [ihf (offset + min bytesLeft blockSize)
          (bytesLeft - min bytesLeft blockSize) (acc ++ blk) (by omega)]
        rw [Option.map_map]
        congr 1
        funext rest
        simp [Function.comp, List.append_assoc]

theorem pieceStream_none_of_schedule_fail (env : HashEnv) (blockSize : Nat) :
    ∀ fuel offset bytesLeft,
      (∃ p ∈ blockSchedule blockSize fuel offset bytesLeft,
        env.readBlock p.1 p.2 = none) →
      pieceStream env blockSize fuel offset bytesLeft = none := by
  intro fuel
  induction fuel with
  | zero =>
    intro offset bytesLeft h
    simp [blockSchedule] at h
  | succ fuel ihf =>
    intro offset bytesLeft h
    obtain ⟨p, hp, hfail⟩ := h
    simp only [blockSchedule] at hp
    by_cases h0 : bytesLeft = 0
    · rw [if_pos h0] at hp
      simp at hp
    · rw [if_neg h0] at hp
      by_cases hbz : blockSize = 0
      · rw [if_pos hbz] at hp
        simp at hp
      · rw [if_neg hbz] at hp
        simp only [pieceStream]
        rw [if_neg h0, if_neg hbz]
        rcases List.mem_cons.mp hp with heq | htail
        · subst heq
          simp only at hfail
          rw [hfail]
        · cases hr : env.readBlock offset (min bytesLeft blockSize) with
          | none => rfl
          | some blk =>
            simp only
            rw [ihf (offset + min bytesLeft blockSize)
              (bytesLeft - min bytesLeft blockSize) ⟨p, htail, hfail⟩]
            rfl

/-- C6: `tr_ioTestPiece` returns false whenever any block read in the
verifier's schedule (block length `min(block_size, remaining)`, in offset
order) fails, and otherwise returns true exactly when the SHA-1 digest of
the piece's bytes streamed block by block from the block cache equals the
stored per-piece digest byte-for-byte. -/
theorem C6_verify (env : HashEnv) (pieceLen blockSize : Nat)
    (digest : List Nat) (hbs : 0 < blockSize) :
    ((∃ p ∈ blockSchedule blockSize pieceLen 0 pieceLen,
        env.readBlock p.1 p.2 = none) →
      tr_ioTestPiece env pieceLen blockSize digest = false) ∧
    (∀ bytes, pieceStream env blockSize pieceLen 0 pieceLen = some bytes →
      (tr_ioTestPiece env pieceLen blockSize digest = true ↔
        env.sha1 bytes = digest)) := by
  have hcorr := recalcGo_eq_pieceStream env blockSize hbs pieceLen 0 pieceLen []
    (le_refl _)
  constructor
  · intro hfail
    have hnone := pieceStream_none_of_schedule_fail env blockSize pieceLen 0
      pieceLen hfail
    unfold tr_ioTestPiece recalculateHash
    rw [hcorr, hnone]
    rfl
  · intro bytes hsome
    unfold tr_ioTestPiece recalculateHash
    rw [hcorr, hsome]
    simp

/-- C6 witness: a 5-byte piece in 2-byte blocks, with an environment whose
blocks all read back as `1`s and whose digest function returns the byte
count, verifies against the stored digest `[5]`. -/
theorem C6_witness :
    tr_ioTestPiece hashEnvOk 5 2 [5] = true ↔
      hashEnvOk.sha1 (List.replicate 5 1) = [5] :=
  (C6_verify hashEnvOk 5 2 [5] (by decide)).2 (List.replicate 5 1) (by decide)

/-! ## C9: magnet-link rendering -/

theorem hexCharLower_not_ws : ∀ k, k < 16 →
    ¬(hexCharLower k = ' ' ∨ hexCharLower k = '\t' ∨
      hexCharLower k = '\n' ∨ hexCharLower k = '\r') := by decide

theorem hexCharUpper_not_ws : ∀ k, k < 16 →
    ¬(hexCharUpper k = ' ' ∨ hexCharUpper k = '\t' ∨
      hexCharUpper k = '\n' ∨ hexCharUpper k = '\r') := by decide

theorem mem_hashStringOf_not_ws (h : List Nat) (c : Char)
    (hc : c ∈ hashStringOf h) :
    ¬(c = ' ' ∨ c = '\t' ∨ c = '\n' ∨ c = '\r') := by
  unfold hashStringOf at hc
  rw [List.mem_flatMap] at hc
  obtain ⟨b, _, hcb⟩ := hc
  simp only [List.mem_cons, List.not_mem_nil, or_false] at hcb
  rcases hcb with rfl | rfl
  · exact hexCharLower_not_ws _ (Nat.mod_lt _ (by norm_num))
  · exact hexCharLower_not_ws _ (Nat.mod_lt _ (by norm_num))

theorem mem_escape_not_ws (t : List Char) (c : Char)
    (hc : c ∈ tr_http_escape t) :
    ¬(c = ' ' ∨ c = '\t' ∨ c = '\n' ∨ c = '\r') := by
  unfold tr_http_escape at hc
  rw [List.mem_flatMap] at hc
  obtain ⟨x, _, hcx⟩ := hc
  by_cases hu : isUnreserved x
  · rw [if_pos hu] at hcx
    simp only [List.mem_singleton] at hcx
    subst hcx
    intro hws
    rcases hws with h | h | h | h <;> (subst h; exact absurd hu (by decide))
  · rw [if_neg hu] at hcx
    simp only [List.mem_cons, List.not_mem_nil, or_false] at hcx
    rcases hcx with rfl | rfl | rfl
    · decide
    · exact hexCharUpper_not_ws _ (Nat.mod_lt _ (by norm_num))
    · exact hexCharUpper_not_ws _ (Nat.mod_lt _ (by norm_num))

theorem hashStringOf_length (h : List Nat) :
    (hashStringOf h).length = 2 * h.length := by
  induction h with
  | nil => rfl
  | cons b t ih =>
    unfold hashStringOf at *
    simp only [List.flatMap_cons, List.length_append, List.length_cons,
      List.length_nil, ih]
    omega

/-- C9: the magnet link is the `magnet:?xt=urn:btih:` head followed by the
40-character hex infohash, then `&dn=` with the percent-escaped name only
when the name is non-empty, then one `&tr=` per tracker and one `&ws=` per
web seed with percent-escaped values; the output never contains whitespace
and no separator is emitted after the last parameter; on the S6 input
(hash bytes all `0xAA`, name `hello world`, tracker `http://t/a`) the
output is exactly the claimed string. -/
theorem C9_magnet (inf : TrInfoView) :
    (tr_torrentInfoGetMagnetLink inf =
      String.data "magnet:?xt=urn:btih:" ++ hashStringOf inf.hash
        ++ (if inf.name.isEmpty then []
            else String.data "&dn=" ++ tr_http_escape inf.name)
        ++ inf.trackers.flatMap (fun t => String.data "&tr=" ++ tr_http_escape t)
        ++ inf.webseeds.flatMap (fun w => String.data "&ws=" ++ tr_http_escape w)) ∧
    (inf.hash.length = 20 → (hashStringOf inf.hash).length = 40) ∧
    (∀ c ∈ tr_torrentInfoGetMagnetLink inf,
      ¬(c = ' ' ∨ c = '\t' ∨ c = '\n' ∨ c = '\r')) ∧
    tr_torrentInfoGetMagnetLink infS6 = String.data
      "magnet:?xt=urn:btih:aaaaaaaaaaaaaaaaaaaaaaaaaaaaaaaaaaaaaaaa&dn=hello%20world&tr=http%3A%2F%2Ft%2Fa" := by
  refine ⟨rfl, ?_, ?_, by decide⟩
  · intro h20
    rw [hashStringOf_length, h20]
  · intro c hc
    unfold tr_torrentInfoGetMagnetLink at hc
    simp only [List.mem_append] at hc
    rcases hc with ((((h | h) | h) | h) | h)
    · exact (by decide : ∀ x ∈ String.data "magnet:?xt=urn:btih:",
        ¬(x = ' ' ∨ x = '\t' ∨ x = '\n' ∨ x = '\r')) c h
    · exact mem_hashStringOf_not_ws inf.hash c h
    · rcases hni : inf.name.isEmpty with hte | hte
      · rw [hni] at h
        simp only [Bool.false_eq_true, if_false] at h
        rw [List.mem_append] at h
        rcases h with h | h
        · exact (by decide : ∀ x ∈ String.data "&dn=",
            ¬(x = ' ' ∨ x = '\t' ∨ x = '\n' ∨ x = '\r')) c h
        · exact mem_escape_not_ws inf.name c h
      · rw [hni] at h
        simp only [if_true] at h
        simp at h
    · rw [List.mem_flatMap] at h
      obtain ⟨t, _, hct⟩ := h
      rw [List.mem_append] at hct
      rcases hct with h | h
      · exact (by decide : ∀ x ∈ String.data "&tr=",
          ¬(x = ' ' ∨ x = '\t' ∨ x = '\n' ∨ x = '\r')) c h
      · exact mem_escape_not_ws t c h
    · rw [List.mem_flatMap] at h
      obtain ⟨w, _, hcw⟩ := h
      rw [List.mem_append] at hcw
      rcases hcw with h | h
      · exact (by decide : ∀ x ∈ String.data "&ws=",
          ¬(x = ' ' ∨ x = '\t' ∨ x = '\n' ∨ x = '\r')) c h
      · exact mem_escape_not_ws w c h

/-- C9 witness: twenty hash bytes render as forty hex characters. -/
theorem C9_witness : (hashStringOf infS6.hash).length = 40 :=
  (C9_magnet infS6).2.1 (by decide)

end Transmission
